import Mathlib

/-!
# Verification of the fea-rs feature-compiler middle-end

This file gives a shallow embedding, in Lean 4, of the parts of the
`fea-rs` feature compiler (files `compile.rs`, `gsub_builders.rs`,
`gpos_builders.rs`) that the specification's claims talk about, together
with theorems settling each claim.

Modelling conventions:
* Rust `BTreeMap`/`HashMap` values are modelled as association lists
  (`List (κ × ν)`) with replace-first-or-append insertion.  Every theorem
  below is insensitive to map iteration order, so the difference between
  sorted (`BTreeMap`), hashed (`HashMap`) and insertion order never
  matters for the stated properties.
* Machine integers (`u16`, `u32`, `i16`, `i32`) are modelled as `Nat`/`Int`
  with explicit range checks exactly where the source performs them
  (`i16::try_from`, `u32` parsing).
* Types that live outside the four source files (the `fonttools` lookup
  payloads, `Diagnostic`, `Anchor`, `ValueRecord`) are modelled from the
  specification's data-model section; a doc comment marks each such
  definition.
* Callback-style iteration (`impl FnMut(u32)`) is rendered as the list of
  arguments the callback receives, in call order.
* Error message strings are abbreviated (quotes around interpolated values
  dropped); no theorem depends on the exact text of a message.
-/

/-! ## Association-list helpers

These model Rust's `BTreeMap`/`HashMap` operations: `get`, `insert`
(replace-or-append), `entry(k).or_insert(v)` and the general
`entry(k)`-then-modify pattern. -/

/-- Model: `map.get(k)`: first value stored under `k`. -/
def alLookup {κ ν : Type} [DecidableEq κ] (m : List (κ × ν)) (k : κ) : Option ν :=
  (m.find? (fun e => e.1 = k)).map Prod.snd

/-- Model: `map.entry(k)`-then-modify: replace the first entry with key `k` by
`f (some old)`, or append `(k, f none)` when `k` is absent. -/
def alAlter {κ ν : Type} [DecidableEq κ] (m : List (κ × ν)) (k : κ) (f : Option ν → ν) :
    List (κ × ν) :=
  match m with
  | [] => [(k, f none)]
  | (k', v') :: rest =>
    if k = k' then (k, f (some v')) :: rest else (k', v') :: alAlter rest k f

/-- Model: `map.insert(k, v)` (replacing semantics). -/
def alInsert {κ ν : Type} [DecidableEq κ] (m : List (κ × ν)) (k : κ) (v : ν) : List (κ × ν) :=
  alAlter m k (fun _ => v)

/-- Model: `map.entry(k).or_insert(v)`: insert only when absent. -/
def alOrInsert {κ ν : Type} [DecidableEq κ] (m : List (κ × ν)) (k : κ) (v : ν) : List (κ × ν) :=
  alAlter m k (fun old => old.getD v)

theorem alLookup_nil {κ ν : Type} [DecidableEq κ] (k : κ) :
    alLookup ([] : List (κ × ν)) k = none := rfl

theorem alLookup_cons {κ ν : Type} [DecidableEq κ] (e : κ × ν) (m : List (κ × ν)) (k : κ) :
    alLookup (e :: m) k = if e.1 = k then some e.2 else alLookup m k := by
  by_cases h : e.1 = k <;> simp [alLookup, List.find?_cons, h]

theorem alLookup_alAlter {κ ν : Type} [DecidableEq κ] (m : List (κ × ν)) (k : κ)
    (f : Option ν → ν) (k' : κ) :
    alLookup (alAlter m k f) k' =
      if k' = k then some (f (alLookup m k)) else alLookup m k' := by
  induction m with
  | nil =>
    simp only [alAlter, alLookup_cons, alLookup_nil]
    by_cases h : k' = k
    · subst h; simp
    · have h2 : ¬ (k = k') := fun h2 => h h2.symm
      simp [h, h2]
  | cons e rest ih =>
    obtain ⟨ke, ve⟩ := e
    by_cases hk : k = ke
    · subst hk
      by_cases h : k' = k
      · subst h
        simp [alAlter, alLookup_cons]
      · have h2 : ¬ (k = k') := fun h2 => h h2.symm
        simp [alAlter, alLookup_cons, h, h2]
    · have hne : ¬ (ke = k) := fun h => hk h.symm
      by_cases h2 : ke = k'
      · subst h2
        simp [alAlter, hk, alLookup_cons, hne]
      · simp [alAlter, hk, alLookup_cons, h2, hne, ih]

theorem alLookup_alInsert {κ ν : Type} [DecidableEq κ] (m : List (κ × ν)) (k : κ) (v : ν)
    (k' : κ) :
    alLookup (alInsert m k v) k' = if k' = k then some v else alLookup m k' := by
  simp [alInsert, alLookup_alAlter]

theorem alLookup_alOrInsert {κ ν : Type} [DecidableEq κ] (m : List (κ × ν)) (k : κ) (v : ν)
    (k' : κ) :
    alLookup (alOrInsert m k v) k' =
      if k' = k then some ((alLookup m k).getD v) else alLookup m k' := by
  simp [alOrInsert, alLookup_alAlter]

/-- Altering a key to the value it already holds leaves the map unchanged. -/
theorem alAlter_self {κ ν : Type} [DecidableEq κ] (m : List (κ × ν)) (k : κ)
    (f : Option ν → ν) (v : ν) (hv : alLookup m k = some v) (hf : f (some v) = v) :
    alAlter m k f = m := by
  induction m with
  | nil => simp [alLookup_nil] at hv
  | cons e rest ih =>
    obtain ⟨ke, ve⟩ := e
    rw [alLookup_cons] at hv
    by_cases hk : k = ke
    · subst hk
      simp only [if_pos rfl] at hv
      obtain rfl : ve = v := by injection hv
      simp [alAlter, hf]
    · have hne : ¬ (ke = k) := fun h => hk h.symm
      rw [if_neg hne] at hv
      simp [alAlter, hk, ih hv]

/-- Every entry of an altered map is either the altered entry or an original one. -/
theorem mem_alAlter {κ ν : Type} [DecidableEq κ] {m : List (κ × ν)} {k : κ}
    {f : Option ν → ν} {e : κ × ν} (he : e ∈ alAlter m k f) :
    e = (k, f (alLookup m k)) ∨ e ∈ m := by
  induction m with
  | nil =>
    left
    rw [alLookup_nil]
    simpa [alAlter] using he
  | cons hd rest ih =>
    obtain ⟨ke, ve⟩ := hd
    by_cases hk : k = ke
    · subst hk
      simp only [alAlter, if_pos rfl, ite_true, eq_self_iff_true, List.mem_cons] at he
      rcases he with h1 | h2
      · left
        rw [alLookup_cons]
        simp only [if_pos rfl, ite_true, eq_self_iff_true]
        exact h1
      · right
        exact List.mem_cons_of_mem _ h2
    · simp only [alAlter, if_neg hk, List.mem_cons] at he
      rcases he with h1 | h2
      · right
        exact h1 ▸ List.mem_cons_self _ _
      · rcases ih h2 with h3 | h3
        · left
          rw [h3, alLookup_cons]
          have hne : ¬ (ke = k) := fun h4 => hk h4.symm
          simp [hne]
        · right
          exact List.mem_cons_of_mem _ h3

/-- Model: `alAlter` keeps the key list duplicate-free. -/
theorem keys_alAlter_nodup {κ ν : Type} [DecidableEq κ] {m : List (κ × ν)} {k : κ}
    {f : Option ν → ν} (h : (m.map Prod.fst).Nodup) :
    ((alAlter m k f).map Prod.fst).Nodup := by
  induction m with
  | nil => simp [alAlter]
  | cons hd rest ih =>
    obtain ⟨ke, ve⟩ := hd
    by_cases hk : k = ke
    · subst hk
      simpa [alAlter] using h
    · rw [List.map_cons, List.nodup_cons] at h
      simp only [alAlter, if_neg hk, List.map_cons, List.nodup_cons]
      refine ⟨fun hmem => ?_, ih h.2⟩
      rcases List.mem_map.mp hmem with ⟨e, hem, hfst⟩
      rcases mem_alAlter hem with h2 | h2
      · rw [h2] at hfst
        exact hk (by simpa using hfst)
      · exact h.1 (List.mem_map.mpr ⟨e, h2, hfst⟩)

/-- If keys are nodup, membership determines the lookup result. -/
theorem alLookup_of_mem_nodup {κ ν : Type} [DecidableEq κ] {m : List (κ × ν)} {k : κ} {v : ν}
    (hm : (m.map Prod.fst).Nodup) (h : (k, v) ∈ m) : alLookup m k = some v := by
  induction m with
  | nil => simp at h
  | cons hd rest ih =>
    obtain ⟨ke, ve⟩ := hd
    rw [List.map_cons, List.nodup_cons] at hm
    rcases List.mem_cons.mp h with h1 | h1
    · injection h1 with hk hv
      subst hk; subst hv
      simp [alLookup_cons]
    · rw [alLookup_cons]
      have hne : ¬ (ke = k) := by
        intro h2
        subst h2
        exact hm.1 (List.mem_map.mpr ⟨(ke, v), h1, rfl⟩)
      simp [hne, ih hm.2 h1]

/-- A successful lookup exhibits a member of the list. -/
theorem mem_of_alLookup_eq_some {κ ν : Type} [DecidableEq κ] {m : List (κ × ν)} {k : κ} {v : ν}
    (h : alLookup m k = some v) : (k, v) ∈ m := by
  induction m with
  | nil => simp [alLookup_nil] at h
  | cons hd rest ih =>
    obtain ⟨ke, ve⟩ := hd
    rw [alLookup_cons] at h
    by_cases hk : ke = k
    · rw [if_pos hk] at h
      obtain rfl : ve = v := by injection h
      subst hk
      exact List.mem_cons_self _ _
    · rw [if_neg hk] at h
      exact List.mem_cons_of_mem _ (ih h)

/-! ## Basic data model

`Tag` (4-byte ASCII identifier) is modelled as a `String`; `GlyphId`
(`u16`) as `Nat`.  `Diagnostic`, `Anchor` and `ValueRecord` live outside
the four source files and are modelled from the specification. -/

/-- Tag: 4-byte ASCII layout tag (spec section 3); modelled as a string. -/
abbrev Tag := String

/-- Sentinel tags (`compile.rs` constants). -/
def AALT_TAG : Tag := "aalt"

def SIZE_TAG : Tag := "size"

def LANG_DFLT_TAG : Tag := "dflt"

def SCRIPT_DFLT_TAG : Tag := "DFLT"

/-- Diagnostic severity.  Modelled from the spec: severities are
{error, warning}. -/
inductive Level
  | Error
  | Warning
  deriving DecidableEq, Repr

/-- Modelled from the spec: a diagnostic carries a severity, the offending
byte range and a human message (`Diagnostic` is defined outside the given
source files).  Messages are abbreviated where the source interpolates
values. -/
structure Diagnostic where
  level : Level
  start : Nat
  stop : Nat
  message : String
  deriving DecidableEq, Repr

/-- Model: `Diagnostic::error(range, message)`. -/
def Diagnostic.mkError (start stop : Nat) (message : String) : Diagnostic :=
  ⟨Level.Error, start, stop, message⟩

/-- Model: `Diagnostic::warning(range, message)`. -/
def Diagnostic.mkWarning (start stop : Nat) (message : String) : Diagnostic :=
  ⟨Level.Warning, start, stop, message⟩

/-- Model: `Diagnostic::is_error`. -/
def Diagnostic.is_error (d : Diagnostic) : Bool :=
  d.level = Level.Error

/-- Modelled from the spec (section 3): an anchor is null, a coordinate
pair, or a contour point (named anchors are resolved eagerly, so the
builders only ever see these three shapes). -/
inductive Anchor
  | Null
  | Coord (x y : Int)
  | Contour (x y : Int) (point : Nat)
  deriving DecidableEq, Repr

/-- Modelled from the spec (section 3): optional fields
{xPlacement, yPlacement, xAdvance, yAdvance}; a value format is the bitset
of the present fields.  Variation deltas are not modelled (no claim touches
them). -/
structure ValueRecord where
  xPlacement : Option Int := none
  yPlacement : Option Int := none
  xAdvance : Option Int := none
  yAdvance : Option Int := none
  deriving DecidableEq, Repr

/-- The OpenType value-format bitset of a record: the set of present
fields, with the standard bit assignment. -/
def ValueRecord.format (v : ValueRecord) : Nat :=
  (if v.xPlacement.isSome then 1 else 0) +
  (if v.yPlacement.isSome then 2 else 0) +
  (if v.xAdvance.isSome then 4 else 0) +
  (if v.yAdvance.isSome then 8 else 0)

/-- Model: `ValueRecord::build(var_store)`.  Modelled from the spec: with no
variation deltas present, building resolves to the same scalar fields. -/
def ValueRecord.build (v : ValueRecord) : ValueRecord := v

/-- Model: `GlyphOrClass` (`types` module, described in spec section 3): tagged
union {Null, Glyph(id), Class(ids)}. -/
inductive GlyphOrClass
  | Null
  | Glyph (id : Nat)
  | Class (ids : List Nat)
  deriving DecidableEq, Repr

/-- Model: `GlyphId::NOTDEF` is glyph id 0. -/
def NOTDEF : Nat := 0

/-! ## Lookup registry (`AllLookups`, `SomeLookup`, `LookupId`)

The `fonttools` `Lookup`/`Substitution`/`Positioning` types are
external to the repository; they are modelled from the spec (section 3):
a lookup is (flags, optional mark-filter-set id, subtables).  Only the
single-substitution payload is carried in full, because no claim inspects
the other payloads; each variant still exists so that `SomeLookup::kind`
is a faithful translation. -/

/-- The GSUB/GPOS statement kinds dispatched by the compiler (subset of
the parser's `Kind` enum used by the lookup registry). -/
inductive Kind
  | GsubType1
  | GsubType2
  | GsubType3
  | GsubType4
  | GsubType5
  | GsubType6
  | GsubType7
  | GsubType8
  | GposType1
  | GposType2
  | GposType3
  | GposType4
  | GposType5
  | GposType6
  | GposType7
  | GposType8
  | GposNode
  deriving DecidableEq, Repr

/-- Model: `fonttools` GSUB rule payloads.  The `Single` payload is the list of
subtables, each a map target-gid to replacement-gid. -/
inductive Substitution
  | Single (subtables : List (List (Nat × Nat)))
  | Multiple
  | Alternate
  | Ligature
  | Contextual
  | ChainedContextual
  | Extension
  | ReverseChaining
  deriving DecidableEq, Repr

/-- Model: `fonttools` GPOS rule payloads.  The `Single` and `Pair` payloads are
lists of subtables (maps as in the source). -/
inductive Positioning
  | Single (subtables : List (List (Nat × ValueRecord)))
  | Pair (subtables : List (List ((Nat × Nat) × (ValueRecord × ValueRecord))))
  | Cursive
  | MarkToBase
  | MarkToLig
  | MarkToMark
  | Contextual
  | ChainedContextual
  | Extension
  deriving DecidableEq, Repr

/-- Model: `fonttools::layout::common::Lookup<T>`: flags, optional
mark-filtering-set id, and the rule payload. -/
structure LookupTable (R : Type) where
  flags : Nat
  markFilteringSet : Option Nat
  rule : R
  deriving DecidableEq, Repr

/-- Model: `SomeLookup` (`compile.rs`). -/
inductive SomeLookup
  | GsubLookup (lookup : LookupTable Substitution)
  | GposLookup (lookup : LookupTable Positioning)
  deriving DecidableEq, Repr

/-- Model: `LookupId` (`compile.rs`). -/
inductive LookupId
  | Gpos (idx : Nat)
  | Gsub (idx : Nat)
  deriving DecidableEq, Repr

/-- Model: `LookupId::to_raw`. -/
def LookupId.to_raw : LookupId → Nat
  | .Gpos idx => idx
  | .Gsub idx => idx

/-- Model: `is_gpos_rule` (`compile.rs`). -/
def is_gpos_rule (kind : Kind) : Bool :=
  match kind with
  | .GposType1 | .GposType2 | .GposType3 | .GposType4
  | .GposType5 | .GposType6 | .GposType7 | .GposType8 => true
  | _ => false

/-- Model: `SomeLookup::new(kind, flags, mark_filtering_set)` (`compile.rs`).
The unimplemented/panicking arms (`GsubType7`, `GsubType8`, `GposNode`)
are mapped to the nearest payload variant; no claim exercises them. -/
def SomeLookup.new (kind : Kind) (flags : Nat) (markFilteringSet : Option Nat) : SomeLookup :=
  if is_gpos_rule kind then
    .GposLookup
      { flags, markFilteringSet,
        rule :=
          match kind with
          | .GposType1 => .Single [[]]
          | .GposType2 => .Pair [[]]
          | .GposType3 => .Cursive
          | .GposType4 => .MarkToBase
          | .GposType5 => .MarkToLig
          | .GposType6 => .MarkToMark
          | .GposType7 => .Contextual
          | _ => .ChainedContextual }
  else
    .GsubLookup
      { flags, markFilteringSet,
        rule :=
          match kind with
          | .GsubType1 => .Single [[]]
          | .GsubType2 => .Multiple
          | .GsubType3 => .Alternate
          | .GsubType4 => .Ligature
          | .GsubType5 => .Contextual
          | _ => .ChainedContextual }

/-- Model: `SomeLookup::kind` (`compile.rs`). -/
def SomeLookup.kind : SomeLookup → Kind
  | .GsubLookup l =>
    match l.rule with
    | .Single _ => .GsubType1
    | .Multiple => .GsubType2
    | .Alternate => .GsubType3
    | .Ligature => .GsubType4
    | .Contextual => .GsubType5
    | .ChainedContextual => .GsubType6
    | .Extension => .GsubType7
    | .ReverseChaining => .GsubType8
  | .GposLookup l =>
    match l.rule with
    | .Single _ => .GposType1
    | .Pair _ => .GposType2
    | .Cursive => .GposType3
    | .MarkToBase => .GposType4
    | .MarkToLig => .GposType5
    | .MarkToMark => .GposType6
    | .Contextual => .GposType7
    | .ChainedContextual => .GposType8
    | .Extension => .GposNode

/-- Model: `AllLookups` (`compile.rs`): the current-lookup slot, the per-table
vectors of finished lookups and the named-lookup table. -/
structure AllLookups where
  current : Option SomeLookup := none
  currentName : Option String := none
  gpos : List (LookupTable Positioning) := []
  gsub : List (LookupTable Substitution) := []
  named : List (String × LookupId) := []
  deriving DecidableEq, Repr

/-- Model: `AllLookups::push` (`compile.rs`). -/
def AllLookups.push (a : AllLookups) (lookup : SomeLookup) : AllLookups × LookupId :=
  match lookup with
  | .GsubLookup sub =>
    ({ a with gsub := a.gsub ++ [sub] }, .Gsub a.gsub.length)
  | .GposLookup pos =>
    ({ a with gpos := a.gpos ++ [pos] }, .Gpos a.gpos.length)

/-- Model: `AllLookups::needs_new_lookup(kind)` (`compile.rs` line 981): the code
compares the current lookup kind for **equality** with the requested kind
(`self.current.as_ref().map(SomeLookup::kind) == Some(kind)`). -/
def AllLookups.needs_new_lookup (a : AllLookups) (kind : Kind) : Bool :=
  a.current.map SomeLookup.kind = some kind

/-- Modelled from the spec sentence for comparison:
"`needs_new_lookup(kind)`: true iff `current` is `None` or its kind
differs." -/
def specNeedsNewLookup (a : AllLookups) (kind : Kind) : Bool :=
  match a.current with
  | none => true
  | some cur => cur.kind ≠ kind

/-- Model: `AllLookups::finish_current` (`compile.rs`): move `current` into the
per-kind vector, register a name when present, and return the assigned id
and name. -/
def AllLookups.finish_current (a : AllLookups) :
    AllLookups × Option (LookupId × Option String) :=
  match a.current with
  | none => (a, none)
  | some lookup =>
    let a1 := { a with current := none }
    let (a2, id) := a1.push lookup
    match a2.currentName with
    | some name =>
      ({ a2 with currentName := none, named := alInsert a2.named name id },
        some (id, some name))
    | none => (a2, some (id, none))

/-! ## Claim C1: `needs_new_lookup`

The source (`compile.rs` line 981) computes
`self.current.as_ref().map(SomeLookup::kind) == Some(kind)`: **equality**
with the requested kind.  The spec demands the negation ("true iff
`current` is `None` or its kind differs").  With `current = None` — the
state at the first rule of every feature — the code returns `false`, so
`ensure_current_lookup_type` skips `start_lookup` and then panics at
`current_mut().expect("we just created it")`; the `expect` message and the
doc comment "should be called before each new rule" show the intent is the
spec's reading. -/

/-- The state of the lookup registry at the first rule of a feature:
no current lookup. -/
def freshRegistry : AllLookups := {}

/-- C1: at the fresh registry (current lookup slot `None`) the code's
`needs_new_lookup` returns `false` for every rule kind probed here, while
the spec's description requires `true`; the two definitions disagree. -/
theorem claim1_needs_new_lookup_inverted :
    AllLookups.needs_new_lookup freshRegistry Kind.GsubType1 = false ∧
    specNeedsNewLookup freshRegistry Kind.GsubType1 = true ∧
    AllLookups.needs_new_lookup freshRegistry Kind.GposType2 = false ∧
    specNeedsNewLookup freshRegistry Kind.GposType2 = true := by
  refine ⟨rfl, rfl, rfl, rfl⟩

/-- Supporting characterization: the code's `needs_new_lookup` is `true`
exactly when a current lookup exists **and** its kind equals the request —
the negation of the specified condition at every state. -/
theorem needs_new_lookup_eq_spec_negation (a : AllLookups) (kind : Kind) :
    AllLookups.needs_new_lookup a kind = ! specNeedsNewLookup a kind := by
  cases h : a.current with
  | none => simp [AllLookups.needs_new_lookup, specNeedsNewLookup, h]
  | some cur =>
    by_cases hk : cur.kind = kind <;>
      simp [AllLookups.needs_new_lookup, specNeedsNewLookup, h, hk]

/-! ## Claim C2: `set_script_language` and default-language inheritance -/

/-- Model: `FeatureKey` (`compile.rs`). -/
structure FeatureKey where
  feature : Tag
  script : Tag
  language : Tag
  deriving DecidableEq, Repr

/-- Model: `FeatureKey::for_feature` (`compile.rs`). -/
def FeatureKey.for_feature (feature : Tag) : FeatureKey :=
  ⟨feature, SCRIPT_DFLT_TAG, LANG_DFLT_TAG⟩

/-- Model: `FeatureKey::script(self, script)` (named `atScript` because the field
is called `script`). -/
def FeatureKey.atScript (k : FeatureKey) (script : Tag) : FeatureKey :=
  { k with script }

/-- Model: `FeatureKey::language(self, language)`. -/
def FeatureKey.atLanguage (k : FeatureKey) (language : Tag) : FeatureKey :=
  { k with language }

/-- The slice of `CompilationCtx` state read and written by
`set_script_language` and `add_lookup_to_feature`. -/
structure CtxState where
  errors : List Diagnostic := []
  features : List (FeatureKey × List LookupId) := []
  lookups : AllLookups := {}
  curLanguageSystems : List (Tag × Tag) := []
  curFeatureName : Option Tag := none
  deriving DecidableEq, Repr

/-- Model: `CompilationCtx::error`. -/
def CtxState.pushError (ctx : CtxState) (start stop : Nat) (msg : String) : CtxState :=
  { ctx with errors := ctx.errors ++ [Diagnostic.mkError start stop msg] }

/-- Model: `CompilationCtx::add_lookup_to_feature` (`compile.rs`): append the id
under `(feature, script, lang)` for each current language system.  The
`HashSet` iteration order does not matter: each append touches a distinct
key. -/
def CtxState.add_lookup_to_feature (ctx : CtxState) (lookup : LookupId) (feature : Tag) :
    CtxState :=
  let key := FeatureKey.for_feature feature
  { ctx with
    features :=
      ctx.curLanguageSystems.foldl
        (fun fs sl =>
          alAlter fs ((key.atScript sl.1).atLanguage sl.2) (fun o => o.getD [] ++ [lookup]))
        ctx.features }

/-- The tail of `CompilationCtx::set_script_language` after the
feature-name checks: finalize the current lookup, bind it, then install
the new key and language-system set. -/
def CtxState.switch_language_systems (ctx : CtxState) (feature script language : Tag)
    (excludeDflt : Bool) : CtxState :=
  let p := ctx.lookups.finish_current
  let ctx1 := { ctx with lookups := p.1 }
  let ctx2 :=
    match p.2 with
    | some (id, _) => ctx1.add_lookup_to_feature id feature
    | none => ctx1
  let dfltKey := (FeatureKey.for_feature feature).atLanguage language
  let realKey := dfltKey.atScript script
  let wantsDflt := dfltKey.language = LANG_DFLT_TAG ∧ excludeDflt = false
  let lookupsVal := if wantsDflt then (alLookup ctx2.features dfltKey).getD [] else []
  { ctx2 with
    features := alInsert ctx2.features realKey lookupsVal,
    curLanguageSystems := [(realKey.script, realKey.language)] }

/-- Model: `CompilationCtx::set_script_language` (`compile.rs` lines 267-308). -/
def CtxState.set_script_language (ctx : CtxState) (script language : Tag)
    (excludeDflt _required : Bool) (errStart errStop : Nat) : CtxState :=
  match ctx.curFeatureName with
  | none => ctx.pushError errStart errStop "language/script only allowed in feature block"
  | some tag =>
    if tag = AALT_TAG ∨ tag = SIZE_TAG then
      ctx.pushError errStart errStop "language/script not allowed in this feature"
    else
      ctx.switch_language_systems tag script language excludeDflt

/-- Model: `l` begins with `p`. -/
def listBeginsWith {α : Type} (p l : List α) : Prop := l.take p.length = p

instance {α : Type} [DecidableEq α] (p l : List α) : Decidable (listBeginsWith p l) := by
  unfold listBeginsWith; infer_instance

/-- A reachable-shaped state inside `feature liga` after one finished
lookup was bound to `(liga, latn, dflt)` by a preceding `script latn`
statement. -/
def claim2Ctx : CtxState :=
  { errors := [],
    features := [(⟨"liga", "latn", "dflt"⟩, [LookupId.Gsub 0])],
    lookups := {},
    curLanguageSystems := [("latn", "dflt")],
    curFeatureName := some "liga" }

/-- C2 counterexample: after `language TRK;` (no `exclude_dflt`) inside
`feature liga` with `features[(liga, latn, dflt)] = [Gsub 0]`, the key
`(liga, latn, TRK)` holds the empty sequence — it does **not** begin with
the dflt sequence recorded when the language statement ran. -/
theorem claim2_counterexample :
    ¬ listBeginsWith
        ((alLookup claim2Ctx.features ⟨"liga", "latn", "dflt"⟩).getD [])
        ((alLookup (claim2Ctx.set_script_language "latn" "TRK " false false 0 0).features
            ⟨"liga", "latn", "TRK "⟩).getD []) := by
  decide

/-- C2 amended: a `language L` statement with `L ≠ dflt` (with or without
`exclude_dflt`) **resets** `features[(F, S, L)]` to the empty sequence;
the dflt sequence is never inherited for a non-dflt language. -/
theorem claim2_amended (ctx : CtxState) (script language : Tag)
    (excludeDflt required : Bool) (s e : Nat) (F : Tag)
    (hf : ctx.curFeatureName = some F) (ha : F ≠ AALT_TAG) (hs : F ≠ SIZE_TAG)
    (hl : language ≠ LANG_DFLT_TAG) :
    alLookup (ctx.set_script_language script language excludeDflt required s e).features
      ⟨F, script, language⟩ = some [] := by
  have hor : ¬ (F = AALT_TAG ∨ F = SIZE_TAG) := by
    rintro (h | h)
    · exact ha h
    · exact hs h
  simp only [CtxState.set_script_language, hf]
  rw [if_neg hor]
  unfold CtxState.switch_language_systems
  simp only [FeatureKey.for_feature, FeatureKey.atLanguage, FeatureKey.atScript, hl,
    false_and, if_false, ite_false]
  rw [alLookup_alInsert]
  simp [hl]

/-- Witness for `claim2_amended` at a concrete state. -/
theorem claim2_amended_witness :
    alLookup ((⟨[], [], {}, [], some "liga"⟩ : CtxState).set_script_language
        "grek" "ELL " false false 0 0).features
      ⟨"liga", "grek", "ELL "⟩ = some [] :=
  claim2_amended _ "grek" "ELL " false false 0 0 "liga" rfl (by decide) (by decide)
    (by decide)

/-! ## Claim C3: named glyph ranges (`get_diff_range`, `named_range`, `num_range`)

Glyph names are modelled as `List Char` (the source works on ASCII byte
strings).  The `while` loops that widen the diff range over adjacent
digits are rendered by their run-length closed forms. -/

/-- Length of the common prefix (`bytes().zip().take_while(eq).count()`). -/
def diffFront (one two : List Char) : Nat :=
  ((one.zip two).takeWhile (fun p => p.1 = p.2)).length

/-- Length of the common suffix (`bytes().rev().zip(...).count()`). -/
def diffBackCount (one two : List Char) : Nat :=
  ((one.reverse.zip two.reverse).takeWhile (fun p => p.1 = p.2)).length

/-- Model: `get_diff_range` (`compile.rs`): the minimal differing byte range,
widened outward over adjacent ASCII digits; `(0, 0)` when the strings are
equal.  The two widening `while` loops are expressed as the length of the
digit run ending before `front` and the digit run starting at `back`. -/
def get_diff_range (one two : List Char) : Nat × Nat :=
  let front := diffFront one two
  let back := one.length - diffBackCount one two
  if back < front then (0, 0)
  else
    let front2 := front - ((one.take front).reverse.takeWhile Char.isDigit).length
    let back2 := back + ((one.drop back).takeWhile Char.isDigit).length
    (front2, back2)

/-- Model: `alpha_range` (`compile.rs`): one name per letter in
`[startChar, endChar]`, substituted at position `front`. -/
def alpha_range (start : List Char) (front : Nat) (startChar endChar : Char) :
    List (List Char) :=
  (List.range' startChar.toNat (endChar.toNat + 1 - startChar.toNat)).map
    (fun c => start.take front ++ [Char.ofNat c] ++ start.drop (front + 1))

/-- Model: `u32::from_str` on a digit substring: all-digit, non-empty, below
`2^32`. -/
def parse_u32 (s : List Char) : Option Nat :=
  let v := s.foldl (fun a c => a * 10 + (c.toNat - 48)) 0
  if s ≠ [] ∧ s.all Char.isDigit ∧ v < 4294967296 then some v else none

/-- Model: `write!("{:0width$}", val)`: `val` in decimal, left-padded with zeros
to `width`. -/
def zeroPad (width : Nat) (v : Nat) : List Char :=
  let ds := Nat.toDigits 10 v
  List.replicate (width - ds.length) '0' ++ ds

/-- Model: `num_range` (`compile.rs` lines 899-916): substitute each value of
`sub_range` — a **half-open** Rust `Range<u32>`, `subStart..subStop` —
zero-padded to the width of the text range, at bytes `[front, back)`.
(The source mutates one template string; every substitution has exactly
the width of the text range here, so the functional form coincides.) -/
def num_range (start : List Char) (subStart subStop : Nat) (front back : Nat) :
    List (List Char) :=
  (List.range' subStart (subStop - subStart)).map
    (fun v => start.take front ++ zeroPad (back - front) v ++ start.drop back)

/-- Model: `named_range` (`compile.rs` lines 851-882), returning the list of
names passed to the callback (or the error). -/
def named_range (start endn : List Char) : Except String (List (List Char)) :=
  if start.length ≠ endn.length then
    .error "glyph range components must have equal length"
  else
    let dr := get_diff_range start endn
    let front := dr.1
    let back := dr.2
    let lenOne := back - front = 1
    let oneByte := start.getD front ' '
    let twoByte := endn.getD front ' '
    if lenOne ∧ twoByte ≤ oneByte then
      .error "glyph range end must be greater than start"
    else if lenOne ∧ oneByte.isAlpha ∧ twoByte.isAlpha ∧
        ((decide (oneByte > 'Z')) = (decide (twoByte > 'Z'))) then
      .ok (alpha_range start front oneByte twoByte)
    else
      match parse_u32 ((start.take back).drop front), parse_u32 ((endn.take back).drop front) with
      | some s, some e =>
        if s < e then .ok (num_range start s e front back)
        else .error "range glyphs must differ by a single letter or by a run of digits"
      | _, _ => .error "range glyphs must differ by a single letter or by a run of digits"

/-- C3: evaluating `named_range` on the range `a.1 - a.3` (diff range
`D = "1"`/`"3"`, `s = 1 < e = 3`).  The callback receives only `a.1` and
`a.2`: the end of the closed interval, `a.3`, is never produced, because
`num_range` iterates the half-open `s..e` while the claim (and the
adjacent inclusive cid/alpha ranges) require `[s, e]`. -/
theorem claim3_num_range_misses_last :
    named_range ['a', '.', '1'] ['a', '.', '3'] =
      .ok [['a', '.', '1'], ['a', '.', '2']] ∧
    ['a', '.', '3'] ∉ [['a', '.', '1'], ['a', '.', '2']] := by
  constructor
  · rfl
  · decide

/-! ## Claim C8: CID ranges (`cid_range`, `add_glyphs_from_range`) -/

/-- Model: `cid_range` (`compile.rs` lines 830-845): error when
`start_cid >= end_cid`, otherwise the callback sees every cid in the
closed interval, in increasing order.  The result lists the callback's
arguments. -/
def cid_range (startCid endCid : Nat) : Except String (List Nat) :=
  if startCid ≥ endCid then .error "Range end must be greater than start"
  else .ok (List.range' startCid (endCid - startCid + 1))

/-- The cid branch of `CompilationCtx::add_glyphs_from_range`
(`compile.rs` lines 724-744): look each visited cid up in the glyph map,
pushing resolved ids to `out` and one error diagnostic per missing member;
a malformed range pushes a single error and no ids. -/
def add_glyphs_from_range_cid (gmap : Nat → Option Nat) (startCid endCid : Nat)
    (rangeStart rangeStop : Nat) (out : List Nat) (errors : List Diagnostic) :
    List Nat × List Diagnostic :=
  match cid_range startCid endCid with
  | .error err => (out, errors ++ [Diagnostic.mkError rangeStart rangeStop err])
  | .ok cids =>
    cids.foldl
      (fun acc cid =>
        match gmap cid with
        | some id => (acc.1 ++ [id], acc.2)
        | none =>
          (acc.1,
            acc.2 ++ [Diagnostic.mkError rangeStart rangeStop
              "Range member does not exist in font"]))
      (out, errors)

theorem add_glyphs_fold_spec (gmap : Nat → Option Nat) (rs re : Nat) (cids : List Nat) :
    ∀ (out : List Nat) (errors : List Diagnostic),
      cids.foldl
        (fun acc cid =>
          match gmap cid with
          | some id => (acc.1 ++ [id], acc.2)
          | none =>
            (acc.1,
              acc.2 ++ [Diagnostic.mkError rs re "Range member does not exist in font"]))
        (out, errors) =
      (out ++ cids.filterMap gmap,
        errors ++ (cids.filter (fun v => (gmap v).isNone)).map
          (fun _ => Diagnostic.mkError rs re "Range member does not exist in font")) := by
  induction cids with
  | nil => intro out errors; simp
  | cons c rest ih =>
    intro out errors
    cases hg : gmap c with
    | some id =>
      simp only [List.foldl_cons, hg, List.filterMap_cons, List.filter_cons]
      rw [ih]
      simp [hg]
    | none =>
      simp only [List.foldl_cons, hg, List.filterMap_cons, List.filter_cons]
      rw [ih]
      simp [hg]

/-- C8: for a cid range `n - m`: when `n ≥ m` one error diagnostic is
recorded and no ids are contributed; when `n < m` the visited cids are
exactly the closed interval `[n, m]` in strictly increasing order, the
resolvable ids are all contributed in order, and each unresolvable member
contributes one error diagnostic. -/
theorem claim8_cid_range (gmap : Nat → Option Nat) (n m rs re : Nat)
    (out : List Nat) (errors : List Diagnostic) :
    (n ≥ m →
      add_glyphs_from_range_cid gmap n m rs re out errors =
        (out, errors ++ [Diagnostic.mkError rs re "Range end must be greater than start"])) ∧
    (n < m →
      cid_range n m = .ok (List.range' n (m - n + 1)) ∧
      (∀ v, v ∈ List.range' n (m - n + 1) ↔ n ≤ v ∧ v ≤ m) ∧
      (List.range' n (m - n + 1)).Sorted (· < ·) ∧
      add_glyphs_from_range_cid gmap n m rs re out errors =
        (out ++ (List.range' n (m - n + 1)).filterMap gmap,
          errors ++ ((List.range' n (m - n + 1)).filter (fun v => (gmap v).isNone)).map
            (fun _ => Diagnostic.mkError rs re "Range member does not exist in font"))) := by
  constructor
  · intro h
    simp [add_glyphs_from_range_cid, cid_range, h]
  · intro h
    have hlt : ¬ (n ≥ m) := by omega
    refine ⟨by simp [cid_range, hlt], ?_, ?_, ?_⟩
    · intro v
      rw [List.mem_range'_1]
      omega
    · exact List.pairwise_lt_range' n (m - n + 1) 1 (by omega)
    · simp only [add_glyphs_from_range_cid, cid_range, hlt, if_false, ite_false]
      exact add_glyphs_fold_spec gmap rs re _ out errors

/-- Witness for `claim8_cid_range`: the reversed range `12 - 4` yields one
diagnostic and no glyphs; the range `4 - 6` over a glyph map missing cid 5
contributes the ids of 4 and 6 plus one per-member diagnostic. -/
theorem claim8_cid_range_witness :
    add_glyphs_from_range_cid (fun v => if v = 5 then none else some (v + 1)) 12 4 0 1 [] [] =
      ([], [Diagnostic.mkError 0 1 "Range end must be greater than start"]) ∧
    add_glyphs_from_range_cid (fun v => if v = 5 then none else some (v + 1)) 4 6 0 1 [] [] =
      ([5, 7], [Diagnostic.mkError 0 1 "Range member does not exist in font"]) := by
  constructor
  · exact (claim8_cid_range (fun v => if v = 5 then none else some (v + 1))
      12 4 0 1 [] []).1 (by decide)
  · exact (((claim8_cid_range (fun v => if v = 5 then none else some (v + 1))
      4 6 0 1 [] []).2 (by decide)).2.2.2).trans (by decide)

/-! ## Claim C10: `add_single_sub` -/

/-- Model: `SomeLookup::add_gsub_type_1` as it acts on the subtable vector of the
current single-substitution lookup:
`table.last_mut().unwrap().mapping.insert(id, replacement)`.  A lookup is
created with one (empty) subtable, so the vector is nonempty whenever this
runs; the `[]` arm mirrors the `unwrap` being unreachable. -/
def add_gsub_type_1 : List (List (Nat × Nat)) → Nat → Nat → List (List (Nat × Nat))
  | [], _, _ => []
  | [last], id, rep => [alInsert last id rep]
  | s :: rest, id, rep => s :: add_gsub_type_1 rest id rep

/-- The mapping of the current (last) subtable. -/
def lastMapping (subtables : List (List (Nat × Nat))) (g : Nat) : Option Nat :=
  alLookup ((subtables.getLast?).getD []) g

theorem add_gsub_type_1_ne_nil {subtables : List (List (Nat × Nat))} {id rep : Nat}
    (h : subtables ≠ []) : add_gsub_type_1 subtables id rep ≠ [] := by
  match subtables with
  | [] => exact absurd rfl h
  | [last] => simp [add_gsub_type_1]
  | s :: t :: rest => simp [add_gsub_type_1]

theorem lastMapping_add_gsub_type_1 (subtables : List (List (Nat × Nat))) (id rep g : Nat)
    (h : subtables ≠ []) :
    lastMapping (add_gsub_type_1 subtables id rep) g =
      if g = id then some rep else lastMapping subtables g := by
  induction subtables with
  | nil => exact absurd rfl h
  | cons s rest ih =>
    cases rest with
    | nil =>
      simp [add_gsub_type_1, lastMapping, alLookup_alInsert]
    | cons t rest2 =>
      have hne : (t :: rest2 : List (List (Nat × Nat))) ≠ [] := by simp
      have h2 := @add_gsub_type_1_ne_nil (t :: rest2) id rep hne
      obtain ⟨hd2, tl2, heq⟩ := List.exists_cons_of_ne_nil h2
      have e1 : lastMapping (add_gsub_type_1 (s :: t :: rest2) id rep) g =
          lastMapping (add_gsub_type_1 (t :: rest2) id rep) g := by
        show lastMapping (s :: add_gsub_type_1 (t :: rest2) id rep) g =
          lastMapping (add_gsub_type_1 (t :: rest2) id rep) g
        rw [heq]
        rfl
      have e2 : lastMapping (s :: t :: rest2 : List (List (Nat × Nat))) g =
          lastMapping (t :: rest2) g := rfl
      rw [e1, e2]
      exact ih hne

/-- The glyphs denoted by a resolved `GlyphOrClass`. -/
def GlyphOrClass.glyphs : GlyphOrClass → List Nat
  | .Null => []
  | .Glyph id => [id]
  | .Class ids => ids

theorem lastMapping_fold_const (cls : List Nat) (rep : Nat) :
    ∀ (subtables : List (List (Nat × Nat))), subtables ≠ [] →
      (cls.foldl (fun st id => add_gsub_type_1 st id rep) subtables ≠ [] ∧
        ∀ g, lastMapping (cls.foldl (fun st id => add_gsub_type_1 st id rep) subtables) g =
          if g ∈ cls then some rep else lastMapping subtables g) := by
  induction cls with
  | nil => intro st h; simp [h]
  | cons c rest ih =>
    intro st h
    have hne := @add_gsub_type_1_ne_nil st c rep h
    obtain ⟨ih1, ih2⟩ := ih (add_gsub_type_1 st c rep) hne
    refine ⟨by simpa using ih1, fun g => ?_⟩
    simp only [List.foldl_cons]
    rw [ih2 g, lastMapping_add_gsub_type_1 st c rep g h]
    by_cases hg1 : g ∈ rest
    · simp [hg1]
    · by_cases hg2 : g = c
      · simp [hg1, hg2]
      · simp [hg1, hg2]

/-- Model: `CompilationCtx::add_single_sub` (`compile.rs` lines 420-459), after
the target and replacement have been resolved and
`ensure_current_lookup_type(GsubType1)` has provided the current
single-substitution lookup; acts on that lookup's subtable vector and the
diagnostics list. -/
def add_single_sub (targetIds replaceIds : GlyphOrClass)
    (targetStart targetStop replaceStart replaceStop : Nat)
    (subtables : List (List (Nat × Nat))) (errors : List Diagnostic) :
    List (List (Nat × Nat)) × List Diagnostic :=
  match targetIds with
  | .Null =>
    (subtables,
      errors ++ [Diagnostic.mkError targetStart targetStop
        "NULL is not a valid substitution target"])
  | .Glyph id =>
    match replaceIds with
    | .Null => (add_gsub_type_1 subtables id NOTDEF, errors)
    | .Glyph rid => (add_gsub_type_1 subtables id rid, errors)
    | .Class _ =>
      (subtables,
        errors ++ [Diagnostic.mkError replaceStart replaceStop
          "cannot sub glyph by glyphclass"])
  | .Class cls =>
    match replaceIds with
    | .Null => (cls.foldl (fun st id => add_gsub_type_1 st id NOTDEF) subtables, errors)
    | .Glyph rid => (cls.foldl (fun st id => add_gsub_type_1 st id rid) subtables, errors)
    | .Class cls2 =>
      if cls.length ≠ cls2.length then
        (subtables,
          errors ++ [Diagnostic.mkError replaceStart replaceStop
            "class has different length than target"])
      else
        ((cls.zip cls2).foldl (fun st p => add_gsub_type_1 st p.1 p.2) subtables, errors)

/-- C10: a NULL replacement maps every target glyph to NOTDEF (glyph 0) in
the current lookup without touching the diagnostics; a NULL target records
an error and leaves the lookup untouched; a class-to-class substitution
with mismatched lengths records an error and leaves the lookup
untouched. -/
theorem claim10_add_single_sub (target replace : GlyphOrClass)
    (ts te rs re : Nat) (subtables : List (List (Nat × Nat))) (errors : List Diagnostic)
    (hne : subtables ≠ []) :
    (target = GlyphOrClass.Null →
      add_single_sub target replace ts te rs re subtables errors =
        (subtables,
          errors ++ [Diagnostic.mkError ts te "NULL is not a valid substitution target"])) ∧
    (target ≠ GlyphOrClass.Null → replace = GlyphOrClass.Null →
      (add_single_sub target replace ts te rs re subtables errors).2 = errors ∧
      ∀ g ∈ target.glyphs,
        lastMapping (add_single_sub target replace ts te rs re subtables errors).1 g =
          some NOTDEF) ∧
    (∀ cls cls2, target = GlyphOrClass.Class cls → replace = GlyphOrClass.Class cls2 →
      cls.length ≠ cls2.length →
      add_single_sub target replace ts te rs re subtables errors =
        (subtables,
          errors ++ [Diagnostic.mkError rs re "class has different length than target"])) := by
  refine ⟨fun h => ?_, fun h hr => ?_, fun cls cls2 hc hc2 hlen => ?_⟩
  · subst h; rfl
  · subst hr
    cases target with
    | Null => exact absurd rfl h
    | Glyph id =>
      refine ⟨rfl, fun g hg => ?_⟩
      simp only [GlyphOrClass.glyphs, List.mem_singleton] at hg
      subst hg
      simp [add_single_sub, lastMapping_add_gsub_type_1 subtables g NOTDEF g hne]
    | Class cls =>
      refine ⟨rfl, fun g hg => ?_⟩
      simp only [GlyphOrClass.glyphs] at hg
      have h2 := (lastMapping_fold_const cls NOTDEF subtables hne).2 g
      simp only [add_single_sub]
      rw [h2]
      simp [hg]
  · subst hc; subst hc2
    simp [add_single_sub, hlen]

/-- Witness for `claim10_add_single_sub` on concrete inputs: NULL target,
class-to-NOTDEF, and a 2-vs-1 class mismatch. -/
theorem claim10_witness :
    add_single_sub GlyphOrClass.Null (GlyphOrClass.Glyph 7) 0 1 2 3 [[]] [] =
      ([[]], [Diagnostic.mkError 0 1 "NULL is not a valid substitution target"]) ∧
    (add_single_sub (GlyphOrClass.Class [3, 4]) GlyphOrClass.Null 0 1 2 3 [[]] []).2 = [] ∧
    lastMapping (add_single_sub (GlyphOrClass.Class [3, 4]) GlyphOrClass.Null
      0 1 2 3 [[]] []).1 3 = some NOTDEF ∧
    lastMapping (add_single_sub (GlyphOrClass.Class [3, 4]) GlyphOrClass.Null
      0 1 2 3 [[]] []).1 4 = some NOTDEF ∧
    add_single_sub (GlyphOrClass.Class [3, 4]) (GlyphOrClass.Class [9]) 0 1 2 3 [[]] [] =
      ([[]], [Diagnostic.mkError 2 3 "class has different length than target"]) := by
  have h1 := claim10_add_single_sub GlyphOrClass.Null (GlyphOrClass.Glyph 7) 0 1 2 3 [[]] []
    (by decide)
  have h2 := claim10_add_single_sub (GlyphOrClass.Class [3, 4]) GlyphOrClass.Null 0 1 2 3
    [[]] [] (by decide)
  have h3 := claim10_add_single_sub (GlyphOrClass.Class [3, 4]) (GlyphOrClass.Class [9])
    0 1 2 3 [[]] [] (by decide)
  refine ⟨h1.1 rfl, (h2.2.1 (by decide) rfl).1, ?_, ?_, h3.2.2 [3, 4] [9] rfl rfl (by decide)⟩
  · exact (h2.2.1 (by decide) rfl).2 3 (by decide)
  · exact (h2.2.1 (by decide) rfl).2 4 (by decide)

/-! ## Claim C6: `CompilationCtx::build` and diagnostics severity -/

/-- Model: `fonttools` `LanguageSystem` (external; spec section 6): required
feature is always emitted as `None` (`// XXX` in the source). -/
structure LanguageSystem where
  requiredFeature : Option Nat := none
  featureIndices : List Nat
  deriving DecidableEq, Repr

/-- Model: `fonttools` `Script` record (external; spec section 6). -/
structure ScriptRecord where
  defaultLanguageSystem : Option LanguageSystem := none
  languageSystems : List (Tag × LanguageSystem) := []
  deriving DecidableEq, Repr

/-- Model: `fonttools` `GPOSGSUB<T>` (external; spec section 6): lookups,
script table, and `(tag, lookup_indices, required_feature)` triples. -/
structure GPOSGSUB (T : Type) where
  lookups : List T
  scripts : List (Tag × ScriptRecord)
  features : List (Tag × List Nat × Option Nat)
  deriving DecidableEq, Repr

/-- Model: `PosSubBuilder` (`compile.rs` lines 1058-1127). -/
structure PosSubBuilder (T : Type) where
  lookups : List T
  scripts : List (Tag × List (Tag × List Nat)) := []
  features : List ((Tag × List Nat) × Nat) := []
  deriving DecidableEq, Repr

/-- Model: `PosSubBuilder::add`. -/
def PosSubBuilder.add {T : Type} (b : PosSubBuilder T) (key : FeatureKey)
    (lookupIds : List LookupId) : PosSubBuilder T :=
  let raw := lookupIds.map LookupId.to_raw
  let featKey := (key.feature, raw)
  let p :=
    match alLookup b.features featKey with
    | some idx => (b.features, idx)
    | none => (alInsert b.features featKey b.features.length, b.features.length)
  { b with
    features := p.1,
    scripts :=
      alAlter b.scripts key.script (fun o =>
        alAlter (o.getD []) key.language (fun o2 => (o2.getD []) ++ [p.2])) }

/-- Model: `PosSubBuilder::build`: `None` when there are no lookups, otherwise
the assembled table (scripts partitioned on the `dflt` language, features
placed at their assigned indices). -/
def PosSubBuilder.build {T : Type} (b : PosSubBuilder T) : Option (GPOSGSUB T) :=
  if b.lookups.isEmpty then none
  else
    some
      { lookups := b.lookups,
        scripts :=
          b.scripts.map (fun se =>
            (se.1,
              se.2.foldl
                (fun (sr : ScriptRecord) le =>
                  let ls : LanguageSystem := ⟨none, le.2⟩
                  if le.1 = LANG_DFLT_TAG then { sr with defaultLanguageSystem := some ls }
                  else { sr with languageSystems := alInsert sr.languageSystems le.1 ls })
                {})),
        features :=
          (List.range b.features.length).map (fun idx =>
            match b.features.find? (fun e => e.2 = idx) with
            | some e => (e.1.1, e.1.2, none)
            | none => (LANG_DFLT_TAG, [], none)) }

/-- Model: `CompilationCtx::make_gsub_gpos`: split each feature's lookup-id list
at the first `Gsub` id, feed the prefix to the GPOS builder and the suffix
to the GSUB builder, then build both. -/
def CtxState.make_gsub_gpos (ctx : CtxState) :
    Option (GPOSGSUB (LookupTable Substitution)) ×
      Option (GPOSGSUB (LookupTable Positioning)) :=
  let init :
      PosSubBuilder (LookupTable Positioning) × PosSubBuilder (LookupTable Substitution) :=
    (⟨ctx.lookups.gpos, [], []⟩, ⟨ctx.lookups.gsub, [], []⟩)
  let bs :=
    ctx.features.foldl
      (fun bs kv =>
        let splitIdx := kv.2.findIdx (fun x => match x with | .Gsub _ => true | _ => false)
        let gposIdxes := kv.2.take splitIdx
        let gsubIdxes := kv.2.drop splitIdx
        let b1 := if gposIdxes.isEmpty then bs.1 else bs.1.add kv.1 gposIdxes
        let b2 := if gsubIdxes.isEmpty then bs.2 else bs.2.add kv.1 gsubIdxes
        (b1, b2))
      init
  (bs.2.build, bs.1.build)

/-- Model: `Compilation` (`compile.rs`). -/
structure Compilation where
  gpos : Option (GPOSGSUB (LookupTable Positioning))
  gsub : Option (GPOSGSUB (LookupTable Substitution))
  deriving DecidableEq, Repr

/-- Model: `CompilationCtx::build` (`compile.rs` lines 133-140). -/
def CtxState.build (ctx : CtxState) : Except (List Diagnostic) Compilation :=
  if ctx.errors.any Diagnostic.is_error then .error ctx.errors
  else
    let p := ctx.make_gsub_gpos
    .ok ⟨p.2, p.1⟩

/-- C6: `build` returns the diagnostics list instead of tables exactly
when an error-severity diagnostic is present; with only warnings (or no
diagnostics) it returns the GSUB/GPOS tables produced by
`make_gsub_gpos`. -/
theorem claim6_build_gate (ctx : CtxState) :
    ((∃ d ∈ ctx.errors, d.level = Level.Error) →
      CtxState.build ctx = .error ctx.errors) ∧
    ((∀ d ∈ ctx.errors, d.level ≠ Level.Error) →
      CtxState.build ctx =
        .ok ⟨ctx.make_gsub_gpos.2, ctx.make_gsub_gpos.1⟩) := by
  constructor
  · rintro ⟨d, hd, hlvl⟩
    have h : ctx.errors.any Diagnostic.is_error = true :=
      List.any_eq_true.mpr ⟨d, hd, by simp [Diagnostic.is_error, hlvl]⟩
    simp [CtxState.build, h]
  · intro h
    have hfalse : ctx.errors.any Diagnostic.is_error = false := by
      rw [List.any_eq_false]
      intro d hd
      simpa [Diagnostic.is_error] using h d hd
    simp [CtxState.build, hfalse]

/-- Witness for `claim6_build_gate`: one error diagnostic aborts emission;
a lone warning does not. -/
theorem claim6_build_gate_witness :
    CtxState.build ⟨[Diagnostic.mkError 0 1 "boom"], [], {}, [], none⟩ =
      .error [Diagnostic.mkError 0 1 "boom"] ∧
    CtxState.build ⟨[Diagnostic.mkWarning 0 1 "meh"], [], {}, [], none⟩ =
      .ok ⟨(CtxState.make_gsub_gpos ⟨[Diagnostic.mkWarning 0 1 "meh"], [], {}, [], none⟩).2,
        (CtxState.make_gsub_gpos ⟨[Diagnostic.mkWarning 0 1 "meh"], [], {}, [], none⟩).1⟩ := by
  constructor
  · exact (claim6_build_gate _).1 ⟨Diagnostic.mkError 0 1 "boom", by decide, rfl⟩
  · exact (claim6_build_gate _).2 (by decide)

/-! ## Claim C4: `MarkList::insert` (`gpos_builders.rs` lines 389-415)

The `MarkList` is shared by the mark-to-base, mark-to-mark and
mark-to-ligature builders.  Note the source performs
`self.glyphs.insert(glyph, (id, anchor))` **before** inspecting the
returned previous entry, so on conflict the map already holds the new
assignment when the error is returned. -/

/-- Further association-list facts used below. -/
theorem alInsert_of_lookup_none {κ ν : Type} [DecidableEq κ] {m : List (κ × ν)} {k : κ}
    (v : ν) (h : alLookup m k = none) : alInsert m k v = m ++ [(k, v)] := by
  induction m with
  | nil => rfl
  | cons e rest ih =>
    obtain ⟨ke, ve⟩ := e
    rw [alLookup_cons] at h
    by_cases hk : ke = k
    · simp [hk] at h
    · rw [if_neg hk] at h
      have hk2 : ¬ (k = ke) := fun h2 => hk h2.symm
      simp [alInsert, alAlter, hk2] at ih ⊢
      exact ih h

theorem alLookup_eq_none_iff {κ ν : Type} [DecidableEq κ] {m : List (κ × ν)} {k : κ} :
    alLookup m k = none ↔ k ∉ m.map Prod.fst := by
  induction m with
  | nil => simp [alLookup_nil]
  | cons e rest ih =>
    obtain ⟨ke, ve⟩ := e
    rw [alLookup_cons]
    by_cases hk : ke = k
    · simp [hk]
    · have hk2 : ¬ (k = ke) := fun h2 => hk h2.symm
      simp [hk, hk2, ih]

/-- With duplicate-free second components, `find?` on the second component
finds exactly the member. -/
theorem find_snd_of_mem_nodup {κ ν : Type} [DecidableEq ν] {m : List (κ × ν)} {k : κ} {v : ν}
    (hm : (m.map Prod.snd).Nodup) (h : (k, v) ∈ m) :
    m.find? (fun e => e.2 = v) = some (k, v) := by
  induction m with
  | nil => simp at h
  | cons hd rest ih =>
    obtain ⟨ke, ve⟩ := hd
    rw [List.map_cons, List.nodup_cons] at hm
    rcases List.mem_cons.mp h with h1 | h1
    · injection h1 with hk hv
      subst hk; subst hv
      simp [List.find?_cons]
    · have hne : ¬ (ve = v) := by
        intro h2
        subst h2
        exact hm.1 (List.mem_map.mpr ⟨(k, ve), h1, rfl⟩)
      rw [List.find?_cons]
      simp only [hne, decide_False]
      exact ih hm.2 h1

/-- The conflict error (`PreviouslyAssignedClass`): the offending glyph
and the name of its previous class.  The source recovers the name with
`find_map(..).unwrap()`; the name is kept optional so the embedding stays
total (well-formed states always produce `some`). -/
structure PreviouslyAssignedClass where
  glyphId : Nat
  className : Option String
  deriving DecidableEq, Repr

/-- Model: `MarkList` (`gpos_builders.rs`): glyph → (class id, anchor), plus
class name → class id. -/
structure MarkList where
  glyphs : List (Nat × (Nat × Anchor)) := []
  classes : List (String × Nat) := []
  deriving DecidableEq, Repr

/-- The class id the next `insert` will use for `cls`
(`self.classes.entry(class).or_insert(next_id)`). -/
def MarkList.resolveClassId (m : MarkList) (cls : String) : Nat :=
  (alLookup m.classes cls).getD m.classes.length

/-- The name registered for a class id
(`find_map(|(name, idx)| (*idx == id).then(name))`). -/
def MarkList.classNameOf (m : MarkList) (id : Nat) : Option String :=
  (m.classes.find? (fun e => e.2 = id)).map Prod.fst

/-- Model: `MarkList::insert` (`gpos_builders.rs` lines 389-415): allocate or
reuse the class id, store the new `(id, anchor)` under the glyph
(replacing any previous entry), then report `PreviouslyAssignedClass` when
the replaced entry carried a different class id. -/
def MarkList.insert (m : MarkList) (glyph : Nat) (cls : String) (anchor : Anchor) :
    MarkList × Except PreviouslyAssignedClass Nat :=
  let nextId := m.classes.length
  let p :=
    match alLookup m.classes cls with
    | some i => (i, m.classes)
    | none => (nextId, alInsert m.classes cls nextId)
  let id := p.1
  let prev := alLookup m.glyphs glyph
  let m' : MarkList := { glyphs := alInsert m.glyphs glyph (id, anchor), classes := p.2 }
  match prev with
  | some pr =>
    if pr.1 ≠ id then
      (m', .error ⟨glyph, m'.classNameOf pr.1⟩)
    else (m', .ok id)
  | none => (m', .ok id)

/-- Well-formed mark lists: class ids are `0, 1, …` in registration order,
class names are distinct, and every glyph entry refers to a registered
class.  Every state reachable by `insert` from the empty list satisfies
this (see `MarkList.WF_insert`). -/
def MarkList.WF (m : MarkList) : Prop :=
  m.classes.map Prod.snd = List.range m.classes.length ∧
  (m.classes.map Prod.fst).Nodup ∧
  ∀ e ∈ m.glyphs, e.2.1 < m.classes.length

instance (m : MarkList) : Decidable m.WF := by
  unfold MarkList.WF; infer_instance

theorem MarkList.WF_empty : MarkList.WF {} := by decide

/-- Model: `insert` preserves well-formedness. -/
theorem MarkList.WF_insert (m : MarkList) (glyph : Nat) (cls : String) (anchor : Anchor)
    (hwf : m.WF) : (m.insert glyph cls anchor).1.WF := by
  obtain ⟨h1, h2, h3⟩ := hwf
  have core : ∀ (id : Nat) (classes' : List (String × Nat)),
      classes'.map Prod.snd = List.range classes'.length →
      (classes'.map Prod.fst).Nodup →
      (∀ e ∈ m.glyphs, e.2.1 < classes'.length) →
      id < classes'.length →
      MarkList.WF ⟨alInsert m.glyphs glyph (id, anchor), classes'⟩ := by
    intro id classes' hc1 hc2 hg hid
    refine ⟨hc1, hc2, fun e he => ?_⟩
    rcases mem_alAlter he with h4 | h4
    · rw [h4]; exact hid
    · exact hg e h4
  cases hlk : alLookup m.classes cls with
  | some j =>
    have hj : j < m.classes.length := by
      have hmem := mem_of_alLookup_eq_some hlk
      have : j ∈ m.classes.map Prod.snd := List.mem_map.mpr ⟨(cls, j), hmem, rfl⟩
      rw [h1] at this
      exact List.mem_range.mp this
    simp only [MarkList.insert, hlk]
    cases hprev : alLookup m.glyphs glyph with
    | some pr =>
      by_cases hid : pr.1 ≠ j <;> simp [hprev, hid] <;> exact core j m.classes h1 h2 h3 hj
    | none => simpa [hprev] using core j m.classes h1 h2 h3 hj
  | none =>
    have happ := @alInsert_of_lookup_none _ _ _ m.classes cls m.classes.length hlk
    have hc1 : (alInsert m.classes cls m.classes.length).map Prod.snd =
        List.range (alInsert m.classes cls m.classes.length).length := by
      rw [happ]
      simp [h1, List.range_succ]
    have hc2 : ((alInsert m.classes cls m.classes.length).map Prod.fst).Nodup := by
      rw [happ]
      simp only [List.map_append, List.map_cons, List.map_nil]
      rw [List.nodup_append]
      refine ⟨h2, List.nodup_singleton _, ?_⟩
      intro a ha hb
      simp only [List.mem_singleton] at hb
      subst hb
      exact (alLookup_eq_none_iff.mp hlk) ha
    have hlen : (alInsert m.classes cls m.classes.length).length = m.classes.length + 1 := by
      rw [happ]; simp
    simp only [MarkList.insert, hlk]
    have hg : ∀ e ∈ m.glyphs, e.2.1 < (alInsert m.classes cls m.classes.length).length := by
      intro e he
      rw [hlen]
      exact Nat.lt_succ_of_lt (h3 e he)
    have hid : m.classes.length < (alInsert m.classes cls m.classes.length).length := by
      rw [hlen]; omega
    cases hprev : alLookup m.glyphs glyph with
    | some pr =>
      by_cases hid2 : pr.1 ≠ m.classes.length <;> simp [hprev, hid2] <;>
        exact core m.classes.length _ hc1 hc2 hg hid
    | none => simpa [hprev] using core m.classes.length _ hc1 hc2 hg hid

/-- Reduction: the glyph map after `insert` always holds the new
`(class id, anchor)` pair under the glyph. -/
theorem MarkList.insert_fst_glyphs (m : MarkList) (glyph : Nat) (cls : String)
    (anchor : Anchor) :
    (m.insert glyph cls anchor).1.glyphs =
      alInsert m.glyphs glyph (m.resolveClassId cls, anchor) := by
  cases hlk : alLookup m.classes cls with
  | some j =>
    cases hprev : alLookup m.glyphs glyph with
    | none => simp [MarkList.insert, MarkList.resolveClassId, hlk, hprev]
    | some pr =>
      by_cases hid : pr.1 = j <;>
        simp [MarkList.insert, MarkList.resolveClassId, hlk, hprev, hid]
  | none =>
    cases hprev : alLookup m.glyphs glyph with
    | none => simp [MarkList.insert, MarkList.resolveClassId, hlk, hprev]
    | some pr =>
      by_cases hid : pr.1 = m.classes.length <;>
        simp [MarkList.insert, MarkList.resolveClassId, hlk, hprev, hid]

/-- Reduction: `insert` reports an error exactly when the replaced entry
carried a class id different from the one resolved for `cls`. -/
theorem MarkList.insert_isErr_iff (m : MarkList) (glyph : Nat) (cls : String)
    (anchor : Anchor) :
    (∃ err, (m.insert glyph cls anchor).2 = Except.error err) ↔
      ∃ pr, alLookup m.glyphs glyph = some pr ∧ pr.1 ≠ m.resolveClassId cls := by
  cases hlk : alLookup m.classes cls with
  | some j =>
    cases hprev : alLookup m.glyphs glyph with
    | none => simp [MarkList.insert, MarkList.resolveClassId, hlk, hprev]
    | some pr =>
      by_cases hid : pr.1 = j <;>
        simp [MarkList.insert, MarkList.resolveClassId, hlk, hprev, hid]
  | none =>
    cases hprev : alLookup m.glyphs glyph with
    | none => simp [MarkList.insert, MarkList.resolveClassId, hlk, hprev]
    | some pr =>
      by_cases hid : pr.1 = m.classes.length <;>
        simp [MarkList.insert, MarkList.resolveClassId, hlk, hprev, hid]

/-- In a well-formed mark list, a registered class id resolves back to the
name under which it was looked up. -/
theorem MarkList.classNameOf_of_lookup {m : MarkList} {cls : String} {j : Nat}
    (hwf : m.WF) (hlk : alLookup m.classes cls = some j) :
    m.classNameOf j = some cls := by
  have hsnd : (m.classes.map Prod.snd).Nodup := by
    rw [hwf.1]; exact List.nodup_range _
  unfold MarkList.classNameOf
  rw [find_snd_of_mem_nodup hsnd (mem_of_alLookup_eq_some hlk)]
  rfl

/-- In a well-formed mark list, every id below the class count carries a
name, and that name looks up to the id. -/
theorem MarkList.classNameOf_of_lt {m : MarkList} {i : Nat}
    (hwf : m.WF) (hlt : i < m.classes.length) :
    ∃ k0, m.classNameOf i = some k0 ∧ alLookup m.classes k0 = some i := by
  have hsnd : (m.classes.map Prod.snd).Nodup := by
    rw [hwf.1]; exact List.nodup_range _
  have hi : i ∈ m.classes.map Prod.snd := by
    rw [hwf.1]; exact List.mem_range.mpr hlt
  rcases List.mem_map.mp hi with ⟨e, hem, hsnd2⟩
  obtain ⟨k0, i0⟩ := e
  obtain rfl : i0 = i := hsnd2
  refine ⟨k0, ?_, alLookup_of_mem_nodup hwf.2.1 hem⟩
  unfold MarkList.classNameOf
  rw [find_snd_of_mem_nodup hsnd hem]
  rfl

/-- Under well-formedness, "different class id" and "different class
name" coincide for a registered glyph entry. -/
theorem MarkList.neq_id_iff_neq_name {m : MarkList} {cls : String} {i : Nat}
    (hwf : m.WF) (hlt : i < m.classes.length) :
    i ≠ m.resolveClassId cls ↔ m.classNameOf i ≠ some cls := by
  rcases MarkList.classNameOf_of_lt hwf hlt with ⟨k0, hk0, hk0lk⟩
  cases hlk : alLookup m.classes cls with
  | some j =>
    have hres : m.resolveClassId cls = j := by
      unfold MarkList.resolveClassId; rw [hlk]; rfl
    rw [hres, hk0]
    constructor
    · intro hne hcontra
      obtain rfl : k0 = cls := by injection hcontra
      rw [hk0lk] at hlk
      exact hne (by injection hlk)
    · intro hne hcontra
      subst hcontra
      exact hne (by rw [MarkList.classNameOf_of_lookup hwf hlk] at hk0; exact hk0.symm ▸ rfl)
  | none =>
    have hres : m.resolveClassId cls = m.classes.length := by
      unfold MarkList.resolveClassId; rw [hlk]; rfl
    rw [hres, hk0]
    constructor
    · intro _ hcontra
      obtain rfl : k0 = cls := by injection hcontra
      rw [hk0lk] at hlk
      exact absurd hlk (by simp)
    · intro _
      omega

/-- C4 amended: on a well-formed mark list, `insert` returns the
`PreviouslyAssignedClass` error exactly when the glyph was already
registered under a different class — but in that error case the glyph's
stored entry has already been **overwritten** with the new
`(class id, anchor)` pair; the first assignment is not left in place. -/
theorem claim4_amended (m : MarkList) (glyph : Nat) (cls : String) (anchor : Anchor)
    (hwf : m.WF) :
    ((∃ err, (m.insert glyph cls anchor).2 = Except.error err) ↔
      ∃ pr, alLookup m.glyphs glyph = some pr ∧ m.classNameOf pr.1 ≠ some cls) ∧
    alLookup (m.insert glyph cls anchor).1.glyphs glyph =
      some (m.resolveClassId cls, anchor) := by
  constructor
  · rw [MarkList.insert_isErr_iff]
    constructor
    · rintro ⟨pr, hpr, hne⟩
      have hlt : pr.1 < m.classes.length :=
        hwf.2.2 (glyph, pr) (mem_of_alLookup_eq_some hpr)
      exact ⟨pr, hpr, (MarkList.neq_id_iff_neq_name hwf hlt).mp hne⟩
    · rintro ⟨pr, hpr, hname⟩
      have hlt : pr.1 < m.classes.length :=
        hwf.2.2 (glyph, pr) (mem_of_alLookup_eq_some hpr)
      exact ⟨pr, hpr, (MarkList.neq_id_iff_neq_name hwf hlt).mpr hname⟩
  · rw [MarkList.insert_fst_glyphs, alLookup_alInsert]
    simp

/-- The state after registering glyph 7 in class `top`. -/
def claim4M1 : MarkList := (MarkList.insert {} 7 "top" (Anchor.Coord 1 2)).1

/-- C4 counterexample: re-registering glyph 7 under class `bot` returns
the `PreviouslyAssignedClass` error, but the stored entry is changed from
`(0, Coord 1 2)` to `(1, Coord 3 4)` — the first assignment is **not**
left in place, refuting the "entry is left unchanged" part of the
claim. -/
theorem claim4_counterexample :
    (claim4M1.insert 7 "bot" (Anchor.Coord 3 4)).2 =
      Except.error ⟨7, some "top"⟩ ∧
    alLookup claim4M1.glyphs 7 = some (0, Anchor.Coord 1 2) ∧
    alLookup (claim4M1.insert 7 "bot" (Anchor.Coord 3 4)).1.glyphs 7 =
      some (1, Anchor.Coord 3 4) := by
  refine ⟨rfl, rfl, rfl⟩

/-- Witness for `claim4_amended` at the concrete conflicting insert. -/
theorem claim4_amended_witness :
    (∃ err, (claim4M1.insert 7 "bot" (Anchor.Coord 3 4)).2 = Except.error err) ∧
    alLookup (claim4M1.insert 7 "bot" (Anchor.Coord 3 4)).1.glyphs 7 =
      some (claim4M1.resolveClassId "bot", Anchor.Coord 3 4) := by
  have h := claim4_amended claim4M1 7 "bot" (Anchor.Coord 3 4) (by decide)
  exact ⟨h.1.mpr ⟨(0, Anchor.Coord 1 2), by decide, by decide⟩, h.2⟩

/-! ## Claim C5: pair positioning, first insert wins
(`gpos_builders.rs` lines 218-242 and 266-295)

`PairPosBuilder::insert_pair` touches only the glyph-pair sub-builder
(`self.pairs`), so it is modelled on that nested map directly. -/

/-- Model: `GlyphPairPosBuilder`: `gid1 → gid2 → (value1, value2)`. -/
abbrev GlyphPairPosBuilder := List (Nat × List (Nat × (ValueRecord × ValueRecord)))

/-- Model: `PairPosBuilder::insert_pair`:
`self.pairs.0.entry(glyph1).or_default().entry(glyph2).or_insert((record1, record2))`
— the first insertion for a `(gid1, gid2)` key wins. -/
def insert_pair (b : GlyphPairPosBuilder) (glyph1 : Nat) (record1 : ValueRecord)
    (glyph2 : Nat) (record2 : ValueRecord) : GlyphPairPosBuilder :=
  alAlter b glyph1 (fun o => alOrInsert (o.getD []) glyph2 (record1, record2))

/-- The value records stored for a pair. -/
def pairValue (b : GlyphPairPosBuilder) (g1 g2 : Nat) :
    Option (ValueRecord × ValueRecord) :=
  (alLookup b g1).bind (fun inner => alLookup inner g2)

/-- Model: `write_gpos::PairValueRecord`. -/
structure PairValueRecord where
  secondGlyph : Nat
  record1 : ValueRecord
  record2 : ValueRecord
  deriving DecidableEq, Repr

/-- A format-1 pair-positioning subtable: coverage plus one `PairSet` per
covered first glyph. -/
structure PairPosFormat1 where
  coverage : List Nat
  pairSets : List (List PairValueRecord)
  deriving DecidableEq, Repr

/-- One step of the `split_by_format` accumulation in
`GlyphPairPosBuilder::build`:
`split_by_format.entry((v1.format(), v2.format())).or_default().entry(g1).or_default().push(record)`. -/
def splitStep (acc : List ((Nat × Nat) × List (Nat × List PairValueRecord)))
    (key : Nat × Nat) (g1 : Nat) (record : PairValueRecord) :
    List ((Nat × Nat) × List (Nat × List PairValueRecord)) :=
  alAlter acc key (fun o => alAlter (o.getD []) g1 (fun o2 => (o2.getD []) ++ [record]))

/-- The `split_by_format` map of `GlyphPairPosBuilder::build`. -/
def GlyphPairPosBuilder.split (b : GlyphPairPosBuilder) :
    List ((Nat × Nat) × List (Nat × List PairValueRecord)) :=
  b.foldl
    (fun acc ge =>
      ge.2.foldl
        (fun acc2 pe =>
          splitStep acc2 (pe.2.1.format, pe.2.2.format) ge.1
            ⟨pe.1, pe.2.1.build, pe.2.2.build⟩)
        acc)
    []

/-- Model: `GlyphPairPosBuilder::build` (`Builder` impl): one format-1 subtable
per value-format pair, with coverage = first glyphs and parallel pair
sets. -/
def GlyphPairPosBuilder.build (b : GlyphPairPosBuilder) : List PairPosFormat1 :=
  b.split.map (fun fe => ⟨fe.2.map Prod.fst, fe.2.map Prod.snd⟩)

/-- A run of `insert_pair` calls starting from the empty builder. -/
structure PairInsert where
  glyph1 : Nat
  glyph2 : Nat
  record1 : ValueRecord
  record2 : ValueRecord
  deriving DecidableEq, Repr

def pairInsertsRun (l : List PairInsert) : GlyphPairPosBuilder :=
  l.foldl (fun b e => insert_pair b e.glyph1 e.record1 e.glyph2 e.record2) []

theorem pairValue_insert_pair (b : GlyphPairPosBuilder) (a1 a2 g1 g2 : Nat)
    (w1 w2 : ValueRecord) :
    pairValue (insert_pair b a1 w1 a2 w2) g1 g2 =
      if g1 = a1 ∧ g2 = a2 then some ((pairValue b a1 a2).getD (w1, w2))
      else pairValue b g1 g2 := by
  by_cases h1 : g1 = a1
  · subst h1
    by_cases h2 : g2 = a2
    · subst h2
      simp only [pairValue, insert_pair, alLookup_alAlter]
      cases hbg : alLookup b g1 <;>
        simp [hbg, alLookup_alOrInsert, alLookup_nil]
    · have hc : ¬ (g1 = g1 ∧ g2 = a2) := fun hc => h2 hc.2
      simp only [pairValue, insert_pair, alLookup_alAlter, hc, ite_false]
      cases hbg : alLookup b g1 <;>
        simp [hbg, alLookup_alOrInsert, h2, alLookup_nil]
  · have hc : ¬ (g1 = a1 ∧ g2 = a2) := fun hc => h1 hc.1
    simp [pairValue, insert_pair, alLookup_alAlter, h1, hc]

theorem pairValue_run_aux (g1 g2 : Nat) (l : List PairInsert) :
    ∀ b : GlyphPairPosBuilder,
      pairValue (l.foldl (fun b e => insert_pair b e.glyph1 e.record1 e.glyph2 e.record2) b)
          g1 g2 =
        (match pairValue b g1 g2 with
          | some v => some v
          | none =>
            (l.find? (fun e => e.glyph1 == g1 && e.glyph2 == g2)).map
              (fun e => (e.record1, e.record2))) := by
  induction l with
  | nil =>
    intro b
    cases hb : pairValue b g1 g2 <;> simp [hb]
  | cons e rest ih =>
    intro b
    rw [List.foldl_cons, ih]
    rw [pairValue_insert_pair]
    by_cases hm : g1 = e.glyph1 ∧ g2 = e.glyph2
    · obtain ⟨h1, h2⟩ := hm
      subst h1; subst h2
      have hfind : (e :: rest).find? (fun x => x.glyph1 == e.glyph1 && x.glyph2 == e.glyph2) =
          some e := by
        rw [List.find?_cons]
        simp
      rw [hfind]
      simp only [and_self, ite_true]
      cases hb : pairValue b e.glyph1 e.glyph2 <;> simp [hb]
    · have hne : ¬ (e.glyph1 == g1 && e.glyph2 == g2) = true := by
        intro hc
        simp only [Bool.and_eq_true, beq_iff_eq] at hc
        exact hm ⟨hc.1.symm, hc.2.symm⟩
      have hfind : (e :: rest).find? (fun x => x.glyph1 == g1 && x.glyph2 == g2) =
          rest.find? (fun x => x.glyph1 == g1 && x.glyph2 == g2) := by
        rw [List.find?_cons]
        simp only [hne, cond_false]
      rw [hfind, if_neg hm]

/-- Model: `splitHas acc key g1 record`: the accumulated `split_by_format` map
stores `record` in the pair set of `g1` inside the subtable keyed by
`key`. -/
def splitHas (acc : List ((Nat × Nat) × List (Nat × List PairValueRecord)))
    (key : Nat × Nat) (g1 : Nat) (record : PairValueRecord) : Prop :=
  ∃ m', alLookup acc key = some m' ∧
    ∃ recs, alLookup m' g1 = some recs ∧ record ∈ recs

theorem splitStep_establishes (acc : List ((Nat × Nat) × List (Nat × List PairValueRecord)))
    (key : Nat × Nat) (g1 : Nat) (record : PairValueRecord) :
    splitHas (splitStep acc key g1 record) key g1 record := by
  unfold splitHas splitStep
  rw [alLookup_alAlter]
  simp only [if_pos rfl, ite_true]
  refine ⟨_, rfl, ?_⟩
  rw [alLookup_alAlter]
  simp only [if_pos rfl, ite_true]
  exact ⟨_, rfl, List.mem_append_right _ (List.mem_singleton_self _)⟩

theorem splitStep_preserves {acc : List ((Nat × Nat) × List (Nat × List PairValueRecord))}
    {key : Nat × Nat} {g1 : Nat} {record : PairValueRecord}
    (h : splitHas acc key g1 record) (key' : Nat × Nat) (g1' : Nat)
    (record' : PairValueRecord) :
    splitHas (splitStep acc key' g1' record') key g1 record := by
  obtain ⟨m', hm', recs, hrecs, hmem⟩ := h
  unfold splitHas splitStep
  rw [alLookup_alAlter]
  by_cases hk : key = key'
  · subst hk
    rw [if_pos rfl, hm']
    refine ⟨_, rfl, ?_⟩
    rw [alLookup_alAlter]
    by_cases hg : g1 = g1'
    · subst hg
      rw [if_pos rfl]
      refine ⟨_, rfl, ?_⟩
      simp only [Option.getD_some, hrecs]
      exact List.mem_append_left _ hmem
    · rw [if_neg hg]
      simp only [Option.getD_some]
      exact ⟨recs, hrecs, hmem⟩
  · rw [if_neg hk]
    exact ⟨m', hm', recs, hrecs, hmem⟩

theorem foldl_preserves {α β : Type} (P : β → Prop) (f : β → α → β)
    (hf : ∀ acc a, P acc → P (f acc a)) :
    ∀ (L : List α) (acc : β), P acc → P (L.foldl f acc) := by
  intro L
  induction L with
  | nil => intro acc h; exact h
  | cons a rest ih =>
    intro acc h
    exact ih (f acc a) (hf acc a h)

/-- Every entry of the builder shows up in the `split_by_format` map under
its value-format key. -/
theorem split_has_entry (b : GlyphPairPosBuilder) (g1 g2 : Nat)
    (v1 v2 : ValueRecord) (inner : List (Nat × (ValueRecord × ValueRecord)))
    (hout : (g1, inner) ∈ b) (hin : (g2, (v1, v2)) ∈ inner) :
    splitHas b.split (v1.format, v2.format) g1 ⟨g2, v1.build, v2.build⟩ := by
  set record : PairValueRecord := ⟨g2, v1.build, v2.build⟩ with hrec
  set key : Nat × Nat := (v1.format, v2.format) with hkey
  have innerStepPreserves :
      ∀ (g1' : Nat) (acc : List ((Nat × Nat) × List (Nat × List PairValueRecord)))
        (pe : Nat × (ValueRecord × ValueRecord)), splitHas acc key g1 record →
        splitHas (splitStep acc (pe.2.1.format, pe.2.2.format) g1'
          ⟨pe.1, pe.2.1.build, pe.2.2.build⟩) key g1 record :=
    fun g1' acc pe h => splitStep_preserves h _ _ _
  have outerStepPreserves :
      ∀ (acc : List ((Nat × Nat) × List (Nat × List PairValueRecord)))
        (ge : Nat × List (Nat × (ValueRecord × ValueRecord))), splitHas acc key g1 record →
        splitHas (ge.2.foldl (fun acc2 pe =>
          splitStep acc2 (pe.2.1.format, pe.2.2.format) ge.1
            ⟨pe.1, pe.2.1.build, pe.2.2.build⟩) acc) key g1 record := by
    intro acc ge h
    exact foldl_preserves _ _ (fun a x hp => innerStepPreserves ge.1 a x hp) ge.2 acc h
  obtain ⟨s, t, hbt⟩ := List.append_of_mem hout
  obtain ⟨si, ti, hit⟩ := List.append_of_mem hin
  unfold GlyphPairPosBuilder.split
  rw [hbt, List.foldl_append, List.foldl_cons]
  apply foldl_preserves _ _ outerStepPreserves t
  show splitHas (inner.foldl _ _) key g1 record
  rw [hit, List.foldl_append, List.foldl_cons]
  apply foldl_preserves _ _ (fun a x hp => innerStepPreserves g1 a x hp) ti
  exact splitStep_establishes _ _ _ _

/-- C5: if the *earliest* `insert_pair` call for `(g1, g2)` in a run of
inserts carries `(v1, v2)`, then after the whole run (i) the builder
stores `(v1, v2)` for that pair, (ii) any further insert for the pair is a
no-op on the builder state, and (iii) the built format-1 subtables contain
the pair-value record built from `(v1, v2)` for `g1`/`g2`. -/
theorem claim5_pair_pos_first_wins (l : List PairInsert) (g1 g2 : Nat) (v1 v2 : ValueRecord)
    (h : (l.find? (fun e => e.glyph1 == g1 && e.glyph2 == g2)).map
        (fun e => (e.record1, e.record2)) = some (v1, v2)) :
    pairValue (pairInsertsRun l) g1 g2 = some (v1, v2) ∧
    (∀ w1 w2, insert_pair (pairInsertsRun l) g1 w1 g2 w2 = pairInsertsRun l) ∧
    ∃ st ∈ (pairInsertsRun l).build, ∃ i,
      st.coverage.get? i = some g1 ∧
      ∃ ps, st.pairSets.get? i = some ps ∧
        (⟨g2, v1.build, v2.build⟩ : PairValueRecord) ∈ ps := by
  have hpv : pairValue (pairInsertsRun l) g1 g2 = some (v1, v2) := by
    unfold pairInsertsRun
    rw [pairValue_run_aux g1 g2 l []]
    have hempty : pairValue ([] : GlyphPairPosBuilder) g1 g2 = none := rfl
    rw [hempty, h]
  obtain ⟨inner, hin1, hin2⟩ :
      ∃ inner, alLookup (pairInsertsRun l) g1 = some inner ∧
        alLookup inner g2 = some (v1, v2) := by
    unfold pairValue at hpv
    cases hbg : alLookup (pairInsertsRun l) g1 with
    | none => rw [hbg] at hpv; simp at hpv
    | some inner =>
      rw [hbg] at hpv
      exact ⟨inner, rfl, by simpa using hpv⟩
  refine ⟨hpv, fun w1 w2 => ?_, ?_⟩
  · unfold insert_pair
    apply alAlter_self _ _ _ inner hin1
    simp only [Option.getD_some]
    unfold alOrInsert
    exact alAlter_self inner g2 _ (v1, v2) hin2 (by simp)
  · have hsplit := split_has_entry (pairInsertsRun l) g1 g2 v1 v2 inner
      (mem_of_alLookup_eq_some hin1) (mem_of_alLookup_eq_some hin2)
    obtain ⟨m', hm', recs, hrecs, hmem⟩ := hsplit
    refine ⟨⟨m'.map Prod.fst, m'.map Prod.snd⟩, ?_, ?_⟩
    · unfold GlyphPairPosBuilder.build
      exact List.mem_map.mpr ⟨((v1.format, v2.format), m'), mem_of_alLookup_eq_some hm', rfl⟩
    · rcases List.get_of_mem (mem_of_alLookup_eq_some hrecs) with ⟨n, hn⟩
      have hget : m'.get? n.1 = some (g1, recs) := by
        rw [List.get?_eq_get n.isLt]
        simpa using hn
      refine ⟨n.1, ?_, recs, ?_, hmem⟩
      · show (m'.map Prod.fst).get? n.1 = some g1
        rw [List.get?_map, hget]
        rfl
      · show (m'.map Prod.snd).get? n.1 = some recs
        rw [List.get?_map, hget]
        rfl

/-- Witness for `claim5_pair_pos_first_wins`: the scenario from the source
comment — `pos A B 100` followed by the enumerated `pos A B -50`; the
earlier value (xAdvance 100) survives and the later insert is inert. -/
theorem claim5_witness :
    pairValue (pairInsertsRun
        [⟨10, 11, { xAdvance := some 100 }, {}⟩,
          ⟨10, 11, { xAdvance := some (-50) }, {}⟩]) 10 11 =
      some ({ xAdvance := some 100 }, {}) ∧
    ∃ st ∈ (pairInsertsRun
        [⟨10, 11, { xAdvance := some 100 }, {}⟩,
          ⟨10, 11, { xAdvance := some (-50) }, {}⟩]).build, ∃ i,
      st.coverage.get? i = some 10 ∧
      ∃ ps, st.pairSets.get? i = some ps ∧
        (⟨11, ValueRecord.build { xAdvance := some 100 }, ValueRecord.build {}⟩ :
          PairValueRecord) ∈ ps := by
  have h := claim5_pair_pos_first_wins
    [⟨10, 11, { xAdvance := some 100 }, {}⟩, ⟨10, 11, { xAdvance := some (-50) }, {}⟩]
    10 11 { xAdvance := some 100 } {} (by decide)
  exact ⟨h.1, h.2.2⟩

/-! ## Claim C9: `MarkToLigBuilder::insert_ligature`
(`gpos_builders.rs` lines 588-605)

The source does **not** assert on mismatched component counts: it logs a
warning (`log::warn!`) and keeps going, merging the supplied anchors
positionally.  The only failure mode is the index expression
`component_list[i]`, which panics when a *present* anchor sits at an index
at or beyond the stored component count; that panic is modelled as
`none`. -/

/-- The anchor-merging loop of `insert_ligature`:
`for (i, anchor) in components { if let Some(a) = anchor { component_list[i].insert(class, a) } }`.
Returns `none` exactly when the loop would index out of bounds. -/
def insertLigAnchors (cls : String) :
    List (List (String × Anchor)) → Nat → List (Option Anchor) →
      Option (List (List (String × Anchor)))
  | compList, _, [] => some compList
  | compList, i, none :: rest => insertLigAnchors cls compList (i + 1) rest
  | compList, i, some a :: rest =>
    if h : i < compList.length then
      insertLigAnchors cls (compList.set i (alInsert (compList.get ⟨i, h⟩) cls a)) (i + 1) rest
    else none

/-- Model: `MarkToLigBuilder::insert_ligature`, acting on the `ligatures` map
(`gid → Vec<BTreeMap<class, anchor>>`).  The returned `Bool` records
whether the mismatched-length warning fired. -/
def insert_ligature (ligatures : List (Nat × List (List (String × Anchor))))
    (glyph : Nat) (cls : String) (components : List (Option Anchor)) :
    Option (List (Nat × List (List (String × Anchor))) × Bool) :=
  let componentList := (alLookup ligatures glyph).getD []
  let p : List (List (String × Anchor)) × Bool :=
    if componentList.isEmpty then (List.replicate components.length [], false)
    else if componentList.length ≠ components.length then (componentList, true)
    else (componentList, false)
  match insertLigAnchors cls p.1 0 components with
  | some newList => some (alInsert ligatures glyph newList, p.2)
  | none => none

/-- The state after one `insert_ligature` for glyph 1 with two
components. -/
def claim9L1 : List (Nat × List (List (String × Anchor))) :=
  ((insert_ligature [] 1 "acc"
    [some (Anchor.Coord 0 0), some (Anchor.Coord 1 1)]).getD ([], false)).1

/-- C9 counterexample: a second `insert_ligature` for glyph 1 with **one**
component (stored count is two) does not fail — it returns a state (with
the warning flag) in which the single supplied anchor was merged into
component 0.  This refutes "asserts (fails rather than proceeding)". -/
theorem claim9_counterexample :
    ((alLookup claim9L1 1).getD []).length = 2 ∧
    insert_ligature claim9L1 1 "dot" [some (Anchor.Coord 2 2)] =
      some ([(1, [[("acc", Anchor.Coord 0 0), ("dot", Anchor.Coord 2 2)],
        [("acc", Anchor.Coord 1 1)]])], true) := by
  refine ⟨rfl, rfl⟩

theorem insertLigAnchors_total (cls : String) (components : List (Option Anchor)) :
    ∀ (compList : List (List (String × Anchor))) (i : Nat),
      (∀ j a, components.get? j = some (some a) → i + j < compList.length) →
      ∃ r, insertLigAnchors cls compList i components = some r := by
  induction components with
  | nil => intro compList i _; exact ⟨compList, rfl⟩
  | cons c rest ih =>
    intro compList i hcond
    cases c with
    | none =>
      have : ∀ j a, rest.get? j = some (some a) → (i + 1) + j < compList.length := by
        intro j a hj
        have := hcond (j + 1) a (by simpa using hj)
        omega
      simpa [insertLigAnchors] using ih compList (i + 1) this
    | some a =>
      have hlt : i < compList.length := by
        have := hcond 0 a (by simp)
        omega
      have hrest : ∀ j b, rest.get? j = some (some b) →
          (i + 1) + j < (compList.set i (alInsert (compList.get ⟨i, hlt⟩) cls a)).length := by
        intro j b hj
        rw [List.length_set]
        have := hcond (j + 1) b (by simpa using hj)
        omega
      have := ih _ (i + 1) hrest
      simpa [insertLigAnchors, hlt] using this

/-- C9 amended: when a later `insert_ligature` for the same glyph supplies
a component count different from the stored one, the builder does **not**
assert; it sets the warning and proceeds, merging the supplied anchors
into the existing component list — provided every present anchor's index
is within the stored count (beyond it the index expression panics). -/
theorem claim9_amended (ligatures : List (Nat × List (List (String × Anchor))))
    (glyph : Nat) (cls : String) (components : List (Option Anchor))
    (L : List (List (String × Anchor)))
    (hL : alLookup ligatures glyph = some L) (hne : L ≠ [])
    (hlen : L.length ≠ components.length)
    (hin : ∀ i a, components.get? i = some (some a) → i < L.length) :
    ∃ newList, insert_ligature ligatures glyph cls components =
      some (alInsert ligatures glyph newList, true) := by
  have hienil : L.isEmpty = false := by
    cases L with
    | nil => exact absurd rfl hne
    | cons x xs => rfl
  obtain ⟨r, hr⟩ := insertLigAnchors_total cls components L 0
    (fun j a hj => by simpa using hin j a hj)
  refine ⟨r, ?_⟩
  simp [insert_ligature, hL, hienil, hlen, hr]

/-- Witness for `claim9_amended` at the concrete mismatched insert. -/
theorem claim9_amended_witness :
    ∃ newList, insert_ligature claim9L1 1 "dot" [some (Anchor.Coord 2 2)] =
      some (alInsert claim9L1 1 newList, true) := by
  apply claim9_amended claim9L1 1 "dot" [some (Anchor.Coord 2 2)]
    [[("acc", Anchor.Coord 0 0)], [("acc", Anchor.Coord 1 1)]]
  · rfl
  · decide
  · decide
  · intro i a h
    match i with
    | 0 => decide
    | n + 1 => simp at h

/-! ## Claim C7: single-substitution format choice
(`gsub_builders.rs` lines 15-147)

`SingleSubBuilder::build` groups inserts by their i16 delta, moves groups
smaller than `N_GLYPHS_TO_JUSTIFY_EXTRA_SUB1F1` into the format-2
subtable, and skips the reduction entirely when there would be at most one
subtable. -/

/-- Model: `PossibleSingleSubFormat` (`gsub_builders.rs`). -/
inductive PossibleSingleSubFormat
  | Delta (delta : Int)
  | Format2
  deriving DecidableEq, Repr

/-- The classification performed by `SingleSubBuilder::insert`:
`i16::try_from(replacement - target)` — the delta when it fits in `i16`,
else `Format2`. -/
def classifyDelta (target replacement : Nat) : PossibleSingleSubFormat :=
  let delta : Int := (replacement : Int) - (target : Int)
  if -32768 ≤ delta ∧ delta ≤ 32767 then .Delta delta else .Format2

/-- Model: `SingleSubBuilder`: `target → (replacement, possible format)`. -/
abbrev SingleSubBuilder := List (Nat × (Nat × PossibleSingleSubFormat))

/-- Model: `SingleSubBuilder::insert`. -/
def SingleSubBuilder.insert (b : SingleSubBuilder) (target replacement : Nat) :
    SingleSubBuilder :=
  alInsert b target (replacement, classifyDelta target replacement)

/-- A run of inserts from the empty builder ("for every set of
inserts"). -/
def SingleSubBuilder.ofList (l : List (Nat × Nat)) : SingleSubBuilder :=
  l.foldl (fun b p => b.insert p.1 p.2) []

/-- Model: `COST_OF_EXTRA_SUB1F1_SUBTABLE` = extra offset + format-1 table +
extra coverage header = 12 bytes. -/
def COST_OF_EXTRA_SUB1F1_SUBTABLE : Nat := 2 + (2 + 2 + 2) + (2 + 2)

/-- Model: `GlyphId16::RAW_BYTE_LEN`. -/
def GLYPH_RAW_BYTE_LEN : Nat := 2

/-- Model: `N_GLYPHS_TO_JUSTIFY_EXTRA_SUB1F1` = 12 / 2 = 6. -/
def N_GLYPHS_TO_JUSTIFY_EXTRA_SUB1F1 : Nat :=
  COST_OF_EXTRA_SUB1F1_SUBTABLE / GLYPH_RAW_BYTE_LEN

/-- The `SubtableMap` accumulator of `SingleSubBuilder::build`. -/
structure SubtableMap where
  format1 : List (Int × List (Nat × Nat)) := []
  format2 : List (Nat × Nat) := []
  deriving DecidableEq, Repr

/-- Model: `SubtableMap::from_builder`: sort every pair into its preferred
subtable. -/
def SubtableMap.fromBuilder (b : SingleSubBuilder) : SubtableMap :=
  b.foldl
    (fun m e =>
      match e.2.2 with
      | .Delta d =>
        { m with format1 := alAlter m.format1 d (fun o => (o.getD []) ++ [(e.1, e.2.1)]) }
      | .Format2 => { m with format2 := m.format2 ++ [(e.1, e.2.1)] })
    {}

/-- Model: `SubtableMap::len`: the number of subtables this map would emit. -/
def SubtableMap.len (m : SubtableMap) : Nat :=
  m.format1.length + (if m.format2.isEmpty then 0 else 1)

/-- Model: `SubtableMap::reduce`: when more than one subtable would be emitted,
move each format-1 group smaller than the size-break threshold into the
format-2 group. -/
def SubtableMap.reduce (m : SubtableMap) : SubtableMap :=
  if m.len ≤ 1 then m
  else
    { format1 :=
        m.format1.filter (fun e => ¬ (e.2.length < N_GLYPHS_TO_JUSTIFY_EXTRA_SUB1F1)),
      format2 :=
        m.format2 ++
          ((m.format1.filter
            (fun e => e.2.length < N_GLYPHS_TO_JUSTIFY_EXTRA_SUB1F1)).map Prod.snd).join }

/-- Model: `write_gsub::SingleSubst` (external `write-fonts` type, modelled from
the spec): format 1 carries coverage plus one shared delta, format 2
coverage plus a parallel substitute list. -/
inductive SingleSubst
  | format1 (coverage : List Nat) (deltaGlyphId : Int)
  | format2 (coverage : List Nat) (substitutes : List Nat)
  deriving DecidableEq, Repr

/-- Model: `SubtableMap::build`: the sorted format-2 subtable (when any pair
needs it) followed by one format-1 subtable per surviving delta group. -/
def SubtableMap.build (m : SubtableMap) : List SingleSubst :=
  (if m.format2.isEmpty then []
   else
     let s := m.format2.mergeSort (fun a b => decide (a.1 < b.1 ∨ (a.1 = b.1 ∧ a.2 ≤ b.2)))
     [SingleSubst.format2 (s.map Prod.fst) (s.map Prod.snd)]) ++
  m.format1.map (fun e => SingleSubst.format1 (e.2.map Prod.fst) e.1)

/-- Model: `SingleSubBuilder::build` (`Builder` impl). -/
def SingleSubBuilder.build (b : SingleSubBuilder) : List SingleSubst :=
  ((SubtableMap.fromBuilder b).reduce).build

/-- Byte size of a format-1 coverage table over `n` glyphs. -/
def coverageFormat1Size (n : Nat) : Nat := 4 + 2 * n

/-- Byte size of a `SingleSubstFormat1` subtable (format, coverage
offset, delta) plus its coverage table. -/
def singleSubstFormat1Size (n : Nat) : Nat := 6 + coverageFormat1Size n

/-- Byte size of a `SingleSubstFormat2` subtable (format, coverage
offset, count, one substitute per glyph) plus its coverage table. -/
def singleSubstFormat2Size (n : Nat) : Nat := 6 + 2 * n + coverageFormat1Size n

theorem foldl_preserves_mem {α β : Type} (P : β → Prop) (f : β → α → β) :
    ∀ (L : List α), (∀ acc a, a ∈ L → P acc → P (f acc a)) →
      ∀ acc, P acc → P (L.foldl f acc)
  | [], _, _, h => h
  | a :: rest, hf, acc, h =>
    foldl_preserves_mem P f rest
      (fun acc2 a2 ha2 hp => hf acc2 a2 (List.mem_cons_of_mem _ ha2) hp)
      (f acc a) (hf acc a (List.mem_cons_self _ _) h)

/-- Every builder reachable by inserts stores the classification of its
own pair. -/
theorem ofList_classified (l : List (Nat × Nat)) :
    ∀ e ∈ SingleSubBuilder.ofList l, e.2.2 = classifyDelta e.1 e.2.1 := by
  refine foldl_preserves
    (fun b => ∀ e ∈ b, e.2.2 = classifyDelta e.1 e.2.1)
    (fun b p => SingleSubBuilder.insert b p.1 p.2) ?_ l [] (by simp)
  intro acc a h e he
  rcases mem_alAlter he with h1 | h1
  · rw [h1]
  · exact h e h1

/-- Builders reachable by inserts have duplicate-free targets. -/
theorem ofList_keys_nodup (l : List (Nat × Nat)) :
    ((SingleSubBuilder.ofList l).map Prod.fst).Nodup := by
  refine foldl_preserves (fun b : SingleSubBuilder => (b.map Prod.fst).Nodup)
    (fun b p => SingleSubBuilder.insert b p.1 p.2) ?_ l [] (by simp)
  intro acc a h
  exact keys_alAlter_nodup h

/-- Every pair of a format-1 group of `from_builder` is an entry of the
builder classified with that group's delta. -/
theorem fromBuilder_format1_mem (b : SingleSubBuilder) :
    ∀ ge ∈ (SubtableMap.fromBuilder b).format1, ∀ p ∈ ge.2,
      (p.1, (p.2, PossibleSingleSubFormat.Delta ge.1)) ∈ b := by
  refine foldl_preserves_mem
    (fun m : SubtableMap => ∀ ge ∈ m.format1, ∀ p ∈ ge.2,
      (p.1, (p.2, PossibleSingleSubFormat.Delta ge.1)) ∈ b)
    _ b ?_ {} (by intro ge hge; simp at hge)
  intro m e he hP ge hge p hp
  match hcls : e.2.2 with
  | .Format2 =>
    simp only [hcls] at hge
    exact hP ge hge p hp
  | .Delta d =>
    simp only [hcls] at hge
    rcases mem_alAlter hge with h1 | h1
    · have hge2 : ge.1 = d ∧ ge.2 = (alLookup m.format1 d).getD [] ++ [(e.1, e.2.1)] := by
        rw [h1]
        exact ⟨rfl, rfl⟩
      rw [hge2.2] at hp
      rcases List.mem_append.mp hp with h2 | h2
      · cases hold : alLookup m.format1 d with
        | none => rw [hold] at h2; simp at h2
        | some old =>
          rw [hold] at h2
          simp only [Option.getD_some] at h2
          have := hP (d, old) (mem_of_alLookup_eq_some hold) p h2
          rw [hge2.1]
          exact this
      · simp only [List.mem_singleton] at h2
        rw [h2, hge2.1]
        show (e.1, (e.2.1, PossibleSingleSubFormat.Delta d)) ∈ b
        rw [← hcls]
        exact he
    · exact hP ge h1 p hp

theorem classifyDelta_eq_delta {t r : Nat} {d : Int}
    (h : classifyDelta t r = .Delta d) :
    (r : Int) - (t : Int) = d ∧ -32768 ≤ d ∧ d ≤ 32767 := by
  unfold classifyDelta at h
  by_cases hc : (-32768 ≤ ((r : Int) - (t : Int)) ∧ ((r : Int) - (t : Int)) ≤ 32767)
  · rw [if_pos hc] at h
    injection h with hd
    subst hd
    exact ⟨rfl, hc.1, hc.2⟩
  · rw [if_neg hc] at h
    exact absurd h (by simp)

/-- A format-1 group surviving `reduce` comes from the original map and
either meets the size threshold or is the sole subtable of an unreduced
map. -/
theorem reduce_format1_mem (m : SubtableMap) (ge : Int × List (Nat × Nat))
    (h : ge ∈ m.reduce.format1) :
    ge ∈ m.format1 ∧
      (N_GLYPHS_TO_JUSTIFY_EXTRA_SUB1F1 ≤ ge.2.length ∨
        (m.reduce.format1 = [ge] ∧ m.reduce.format2 = [])) := by
  unfold SubtableMap.reduce at h ⊢
  by_cases hlen : m.len ≤ 1
  · rw [if_pos hlen] at h ⊢
    refine ⟨h, Or.inr ⟨?_, ?_⟩⟩
    · have hge1 : 1 ≤ m.format1.length := by
        cases hf : m.format1 with
        | nil => rw [hf] at h; simp at h
        | cons x xs => simp [hf]
      have hle : m.format1.length ≤ 1 := by
        unfold SubtableMap.len at hlen
        omega
      have h1 : m.format1.length = 1 := le_antisymm hle hge1
      rcases List.length_eq_one.mp h1 with ⟨a, ha⟩
      rw [ha] at h ⊢
      simp only [List.mem_singleton] at h
      rw [h]
    · unfold SubtableMap.len at hlen
      have hge1 : 1 ≤ m.format1.length := by
        cases hf : m.format1 with
        | nil => rw [hf] at h; simp at h
        | cons x xs => simp [hf]
      have hempty : m.format2.isEmpty = true := by
        by_cases he2 : m.format2.isEmpty
        · exact he2
        · rw [if_neg he2] at hlen; omega
      exact List.isEmpty_iff.mp hempty
  · rw [if_neg hlen] at h
    simp only [List.mem_filter, decide_not, Bool.not_eq_true', decide_eq_false_iff_not,
      not_lt, decide_eq_true_eq] at h
    exact ⟨h.1, Or.inl h.2⟩

/-- A format-1 subtable of `SubtableMap.build` names a format-1 group of
the map. -/
theorem build_format1_mem (m : SubtableMap) (cov : List Nat) (d : Int)
    (h : SingleSubst.format1 cov d ∈ m.build) :
    ∃ pairs, (d, pairs) ∈ m.format1 ∧ cov = pairs.map Prod.fst := by
  unfold SubtableMap.build at h
  rcases List.mem_append.mp h with h1 | h1
  · by_cases he : m.format2.isEmpty
    · rw [if_pos he] at h1; simp at h1
    · rw [if_neg he] at h1
      simp only [List.mem_singleton] at h1
      exact absurd h1 (by simp)
  · rcases List.mem_map.mp h1 with ⟨ge, hge, heq⟩
    refine ⟨ge.2, ?_, ?_⟩
    · have hd : ge.1 = d := by injection heq
      rw [← hd]
      exact hge
    · injection heq with hcov _
      exact hcov.symm

/-- When the surviving map is a single format-1 group, the build output is
that one subtable. -/
theorem build_singleton (m : SubtableMap) (ge : Int × List (Nat × Nat))
    (h1 : m.format1 = [ge]) (h2 : m.format2 = []) :
    m.build = [SingleSubst.format1 (ge.2.map Prod.fst) ge.1] := by
  unfold SubtableMap.build
  rw [h1, h2]
  rfl

/-- C7: every format-1 subtable the single-substitution builder emits is a
single-delta subtable — each covered target's stored replacement sits at
the subtable's i16 delta — and a format-1 subtable below the size-break
threshold (6 entries) is emitted only as the sole subtable of the lookup,
where the format-2 alternative is no smaller. -/
theorem claim7_single_sub_format_choice (l : List (Nat × Nat)) (cov : List Nat) (d : Int)
    (h : SingleSubst.format1 cov d ∈ (SingleSubBuilder.ofList l).build) :
    (∀ g1 ∈ cov, ∃ r, (alLookup (SingleSubBuilder.ofList l) g1).map Prod.fst = some r ∧
      (r : Int) - (g1 : Int) = d ∧ -32768 ≤ d ∧ d ≤ 32767) ∧
    (cov.length < N_GLYPHS_TO_JUSTIFY_EXTRA_SUB1F1 →
      (SingleSubBuilder.ofList l).build = [SingleSubst.format1 cov d] ∧
      singleSubstFormat1Size cov.length ≤ singleSubstFormat2Size cov.length) := by
  unfold SingleSubBuilder.build at h
  obtain ⟨pairs, hmem, hcov⟩ := build_format1_mem _ cov d h
  obtain ⟨hmem0, hcase⟩ := reduce_format1_mem _ _ hmem
  constructor
  · intro g1 hg1
    rw [hcov] at hg1
    rcases List.mem_map.mp hg1 with ⟨p, hp, hpfst⟩
    have hent := fromBuilder_format1_mem (SingleSubBuilder.ofList l) (d, pairs) hmem0 p hp
    have hlk : alLookup (SingleSubBuilder.ofList l) p.1 =
        some (p.2, PossibleSingleSubFormat.Delta d) :=
      alLookup_of_mem_nodup (ofList_keys_nodup l) hent
    have hcls : classifyDelta p.1 p.2 = PossibleSingleSubFormat.Delta d := by
      have := ofList_classified l (p.1, (p.2, PossibleSingleSubFormat.Delta d)) hent
      exact this.symm
    obtain ⟨hdelta, hlo, hhi⟩ := classifyDelta_eq_delta hcls
    subst hpfst
    exact ⟨p.2, by rw [hlk]; rfl, hdelta, hlo, hhi⟩
  · intro hsmall
    have hplen : pairs.length < N_GLYPHS_TO_JUSTIFY_EXTRA_SUB1F1 := by
      have : cov.length = pairs.length := by rw [hcov]; simp
      omega
    rcases hcase with hbig | ⟨hone, hempty⟩
    · have hb : N_GLYPHS_TO_JUSTIFY_EXTRA_SUB1F1 ≤ pairs.length := hbig
      omega
    · constructor
      · unfold SingleSubBuilder.build
        rw [build_singleton _ _ hone hempty, hcov]
      · unfold singleSubstFormat1Size singleSubstFormat2Size
        omega

/-- Witness for `claim7_single_sub_format_choice`: one insert `(1 → 2)`
yields a single format-1 subtable with delta 1 and coverage `[1]` (below
the threshold, but sole subtable). -/
theorem claim7_witness :
    (∃ r, (alLookup (SingleSubBuilder.ofList [(1, 2)]) 1).map Prod.fst = some r ∧
      (r : Int) - (1 : Nat) = 1 ∧ -32768 ≤ (1 : Int) ∧ (1 : Int) ≤ 32767) ∧
    ((SingleSubBuilder.ofList [(1, 2)]).build = [SingleSubst.format1 [1] 1] ∧
      singleSubstFormat1Size ([1] : List Nat).length ≤
        singleSubstFormat2Size ([1] : List Nat).length) := by
  have h := claim7_single_sub_format_choice [(1, 2)] [1] 1 (by decide)
  exact ⟨h.1 1 (by decide), h.2 (by decide)⟩
